import Mathlib

/-!
Verification of the test-data generation core of aas-core3.0-testgen.

The development shallowly embeds the Python modules `common.py`,
`primitiving.py`, `ontology.py`, `fixing.py` and `generation.py` into Lean:
pure functions become Lean functions, the mutable hash accumulators of
`hashlib` and the mutable pre-serialization objects become explicit stores
(address-indexed lists) with state passing, and fallible code returns
`Option`/`Except`.  The MD5 compression used by `hashlib.md5` is implemented
in full (RFC 1321) so that digests are the real ones.
-/

namespace Testgen

/-! ## MD5 (the `hashlib.md5` collaborator, RFC 1321) -/

/-- A byte is modelled as a `Nat` below 256; byte strings as lists. -/
abbrev Bytes := List Nat

/-- two to the 32nd, the modulus of all MD5 word arithmetic. -/
def w32 : Nat := 4294967296

/-- Left-rotation of a 32-bit word. -/
def rotl32 (x n : Nat) : Nat := ((x <<< n) % w32) ||| (x >>> (32 - n))

/-- The 64 sine-derived MD5 round constants. -/
def md5K : List Nat := [
  3614090360, 3905402710, 606105819, 3250441966, 4118548399, 1200080426, 2821735955, 4249261313,
  1770035416, 2336552879, 4294925233, 2304563134, 1804603682, 4254626195, 2792965006, 1236535329,
  4129170786, 3225465664, 643717713, 3921069994, 3593408605, 38016083, 3634488961, 3889429448,
  568446438, 3275163606, 4107603335, 1163531501, 2850285829, 4243563512, 1735328473, 2368359562,
  4294588738, 2272392833, 1839030562, 4259657740, 2763975236, 1272893353, 4139469664, 3200236656,
  681279174, 3936430074, 3572445317, 76029189, 3654602809, 3873151461, 530742520, 3299628645,
  4096336452, 1126891415, 2878612391, 4237533241, 1700485571, 2399980690, 4293915773, 2240044497,
  1873313359, 4264355552, 2734768916, 1309151649, 4149444226, 3174756917, 718787259, 3951481745]

/-- The 64 per-round MD5 shift amounts. -/
def md5S : List Nat := [
  7, 12, 17, 22, 7, 12, 17, 22,
  7, 12, 17, 22, 7, 12, 17, 22,
  5, 9, 14, 20, 5, 9, 14, 20,
  5, 9, 14, 20, 5, 9, 14, 20,
  4, 11, 16, 23, 4, 11, 16, 23,
  4, 11, 16, 23, 4, 11, 16, 23,
  6, 10, 15, 21, 6, 10, 15, 21,
  6, 10, 15, 21, 6, 10, 15, 21]

/-- Little-endian 4-byte encoding of a 32-bit word. -/
def le4 (x : Nat) : Bytes :=
  [x % 256, (x / 256) % 256, (x / 65536) % 256, (x / 16777216) % 256]

/-- Little-endian 8-byte encoding of a 64-bit quantity. -/
def le8 (x : Nat) : Bytes := le4 (x % w32) ++ le4 ((x / w32) % w32)

/-- MD5 padding: a `0x80` byte, zeros up to 56 mod 64, then the bit length. -/
def md5Pad (msg : Bytes) : Bytes :=
  msg ++ [128] ++ List.replicate ((119 - msg.length % 64) % 64) 0
      ++ le8 (8 * msg.length)

/-- The `j`-th little-endian 32-bit word of a 64-byte chunk. -/
def leWord (chunk : Bytes) (j : Nat) : Nat :=
  chunk.getD (4 * j) 0 + 256 * chunk.getD (4 * j + 1) 0
    + 65536 * chunk.getD (4 * j + 2) 0 + 16777216 * chunk.getD (4 * j + 3) 0

/-- Round function and message index of MD5 round `i`. -/
def md5FG (i b c d : Nat) : Nat × Nat :=
  if i < 16 then ((b &&& c) ||| ((b ^^^ 4294967295) &&& d), i)
  else if i < 32 then ((d &&& b) ||| ((d ^^^ 4294967295) &&& c), (5 * i + 1) % 16)
  else if i < 48 then (b ^^^ c ^^^ d, (3 * i + 5) % 16)
  else (c ^^^ (b ||| (d ^^^ 4294967295)), (7 * i) % 16)

/-- One MD5 round on the state quadruple. -/
def md5Round (chunk : Bytes) (st : Nat × Nat × Nat × Nat) (i : Nat) :
    Nat × Nat × Nat × Nat :=
  let (a, b, c, d) := st
  let (f, g) := md5FG i b c d
  let tmp := (a + f + md5K.getD i 0 + leWord chunk g) % w32
  (d, (b + rotl32 tmp (md5S.getD i 0)) % w32, b, c)

/-- Process one 64-byte chunk, updating the running state. -/
def md5Chunk (st : Nat × Nat × Nat × Nat) (chunk : Bytes) :
    Nat × Nat × Nat × Nat :=
  let (a, b, c, d) := (List.range 64).foldl (md5Round chunk) st
  ((st.1 + a) % w32, (st.2.1 + b) % w32, (st.2.2.1 + c) % w32, (st.2.2.2 + d) % w32)

/-- Split a byte string into chunks of 64 bytes (fuel-based for kernel
reduction; the fuel `l.length` always suffices since each step consumes
64 bytes). -/
def chunks64Go : Nat → Bytes → List Bytes
  | 0, _ => []
  | _ + 1, [] => []
  | fuel + 1, l => l.take 64 :: chunks64Go fuel (l.drop 64)

/-- Split a byte string into chunks of 64 bytes. -/
def chunks64 (l : Bytes) : List Bytes := chunks64Go l.length l

/-- The MD5 digest (16 bytes) of a byte string. -/
def md5 (msg : Bytes) : Bytes :=
  let (a, b, c, d) :=
    (chunks64 (md5Pad msg)).foldl md5Chunk (1732584193, 4023233417, 2562383102, 271733878)
  le4 a ++ le4 b ++ le4 c ++ le4 d

/-- Lower-case hexadecimal character for a value below 16. -/
def hexChar (n : Nat) : Char := if n < 10 then Char.ofNat (48 + n) else Char.ofNat (87 + n)

/-- Two hexadecimal characters of a byte. -/
def byteHex (b : Nat) : List Char := [hexChar (b / 16 % 16), hexChar (b % 16)]

/-- Hexadecimal rendering of a byte string (as `bytes.hex()` in Python). -/
def bytesToHex (bs : Bytes) : String := ⟨(bs.map byteHex).flatten⟩

/-- Value of a lower-case hexadecimal character. -/
def hexVal (c : Char) : Nat := if c.toNat < 58 then c.toNat - 48 else c.toNat - 87

/-- Parse hexadecimal characters as an integer (as `int(s, base=16)`). -/
def intOfHex (s : List Char) : Nat := s.foldl (fun acc c => 16 * acc + hexVal c) 0

/-- Sanity anchor: MD5 of the empty message is the RFC 1321 test value. -/
theorem md5_test_vector_empty :
    md5 [] = [212, 29, 140, 217, 143, 0, 178, 4, 233, 128, 9, 152, 236, 248, 66, 126] := by
  decide

/-- Sanity anchor: MD5 of `"abc"` is the RFC 1321 test value. -/
theorem md5_test_vector_abc :
    md5 [97, 98, 99] =
      [144, 1, 80, 152, 60, 210, 79, 176, 214, 150, 63, 125, 40, 225, 127, 114] := by
  decide

/-! ## Path segments and their encoding (`common.py`)

A segment of an instance path is either an `int` (a list index) or a `str`
(a property name).  `hash_path` feeds `f"/{repr(segment)}".encode("utf-8")`
to the accumulator. -/

/-- A path segment: an integer index or a string property name. -/
inductive Seg where
  | int : Int → Seg
  | str : String → Seg
deriving DecidableEq

/-- Two hexadecimal characters of a byte value (for `repr` escapes). -/
def hex2 (n : Nat) : List Char := [hexChar (n / 16 % 16), hexChar (n % 16)]

/-- CPython `repr` escaping of one character of a string, given the chosen
quote character.  Backslash and the quote are escaped, the common control
characters become `\n`, `\r`, `\t`, other control characters become
`\xNN`; printable characters stand for themselves (non-ASCII printability
is approximated by passing all characters at or above `0x20` through,
which is exact for the ASCII segments this program hashes). -/
def pyEscapeChar (quote : Char) (c : Char) : List Char :=
  if c = '\\' then ['\\', '\\']
  else if c = quote then ['\\', quote]
  else if c = '\n' then ['\\', 'n']
  else if c = '\r' then ['\\', 'r']
  else if c = '\t' then ['\\', 't']
  else if c.toNat < 32 || c.toNat == 127 then '\\' :: 'x' :: hex2 c.toNat
  else [c]

/-- CPython `repr` of a string: single quotes unless the string contains a
single quote and no double quote. -/
def pyReprStr (s : String) : String :=
  let quote := if s.data.contains '\'' && !(s.data.contains '"') then '"' else '\''
  ⟨quote :: (s.data.map (pyEscapeChar quote)).flatten ++ [quote]⟩

/-- Python `repr` of a segment (`repr(int)` is its decimal rendering). -/
def pyRepr : Seg → String
  | .int n => toString n
  | .str s => pyReprStr s

/-- UTF-8 encoding of one character. -/
def utf8Char (c : Char) : Bytes :=
  let n := c.toNat
  if n < 128 then [n]
  else if n < 2048 then [192 + n / 64, 128 + n % 64]
  else if n < 65536 then [224 + n / 4096, 128 + n / 64 % 64, 128 + n % 64]
  else [240 + n / 262144, 128 + n / 4096 % 64, 128 + n / 64 % 64, 128 + n % 64]

/-- UTF-8 encoding of a string (`str.encode("utf-8")`). -/
def strBytes (s : String) : Bytes := (s.data.map utf8Char).flatten

/-- The bytes hashed for one segment: `f"/{repr(segment)}".encode("utf-8")`. -/
def segmentBytes (s : Seg) : Bytes := strBytes ("/" ++ pyRepr s)

/-! ## The hash-accumulator heap and `hash_path` (`common.py`)

`hashlib.md5()` accumulators are mutable objects; `hash_path`'s contract is
partly about object identity (`prefix_hash is not result`).  We model the
live accumulators as a heap: a list of absorbed byte streams indexed by
address.  `copy` and `hashlib.md5()` allocate at the end, `update` mutates
one address, and `digest` is the MD5 of the absorbed stream. -/

/-- The heap of live hash accumulators: address `↦` absorbed byte stream. -/
structure HashStore where
  accs : List Bytes
deriving DecidableEq

/-- `hashlib.md5()`: allocate a fresh accumulator with nothing absorbed. -/
def HashStore.freshMd5 (σ : HashStore) : Nat × HashStore :=
  (σ.accs.length, ⟨σ.accs ++ [[]]⟩)

/-- `CanHash.copy`: allocate a fresh accumulator with the same state. -/
def HashStore.copy (σ : HashStore) (a : Nat) : Nat × HashStore :=
  (σ.accs.length, ⟨σ.accs ++ [σ.accs.getD a []]⟩)

/-- `CanHash.update`: absorb `data` into the accumulator at address `a`. -/
def HashStore.updateAcc (σ : HashStore) (a : Nat) (data : Bytes) : HashStore :=
  ⟨σ.accs.set a (σ.accs.getD a [] ++ data)⟩

/-- `CanHash.digest`: the MD5 digest of the absorbed stream at address `a`. -/
def HashStore.digest (σ : HashStore) (a : Nat) : Bytes := md5 (σ.accs.getD a [])

/-- `CanHash.hexdigest`. -/
def HashStore.hexdigest (σ : HashStore) (a : Nat) : String := bytesToHex (σ.digest a)

/-- The second argument of `hash_path`: one segment, or a sequence of
segments (`Union[int, str, Sequence[Union[int, str]]]`). -/
inductive SegOrSegs where
  | single : Seg → SegOrSegs
  | many : List Seg → SegOrSegs

/-- `common.hash_path`: hash a path extended with segment(s) and a
pre-hashed prefix.  Returns the address of the resulting accumulator and
the new heap. -/
def hash_path (prefixHash : Option Nat) (sos : SegOrSegs) (σ : HashStore) :
    Nat × HashStore :=
  match sos with
  | .single s =>
      let (hsh, σ1) :=
        match prefixHash with
        | some a => σ.copy a
        | none => σ.freshMd5
      (hsh, σ1.updateAcc hsh (segmentBytes s))
  | .many segs =>
      if segs.length = 0 then
        match prefixHash with
        | some a => (a, σ)
        | none => σ.freshMd5
      else
        let (hsh, σ1) :=
          match prefixHash with
          | some a => σ.copy a
          | none => σ.freshMd5
        (hsh, segs.foldl (fun σ2 s => σ2.updateAcc hsh (segmentBytes s)) σ1)

/-- Updating the accumulator at an address beyond an older address leaves
the older accumulator's state untouched. -/
theorem updateAcc_getD_ne (σ : HashStore) (h a : Nat) (data : Bytes) (hne : a ≠ h) :
    (σ.updateAcc h data).accs.getD a [] = σ.accs.getD a [] := by
  simp only [HashStore.updateAcc, List.getD, List.get?_eq_getElem?]
  rw [List.getElem?_set_ne (Ne.symm hne)]

/-- A whole fold of updates at one address leaves every other address
untouched. -/
theorem foldl_updateAcc_getD_ne (segs : List Seg) (σ : HashStore) (h a : Nat)
    (hne : a ≠ h) :
    (segs.foldl (fun σ2 s => σ2.updateAcc h (segmentBytes s)) σ).accs.getD a []
      = σ.accs.getD a [] := by
  induction segs generalizing σ with
  | nil => rfl
  | cons s rest ih => rw [List.foldl_cons, ih, updateAcc_getD_ne σ h a _ hne]

/-- Reading below the length of the left part of an append ignores the
appended tail. -/
theorem getD_append_lt (σ τ : List Bytes) (a : Nat) (ha : a < σ.length) :
    (σ ++ τ).getD a [] = σ.getD a [] := by
  simp only [List.getD, List.get?_eq_getElem?]
  rw [List.getElem?_append_left ha]

/-- A single-segment `hash_path` call leaves every live accumulator's
digest untouched. -/
theorem hash_path_single_digest_preserved (p : Option Nat) (s : Seg)
    (σ : HashStore) (a : Nat) (ha : a < σ.accs.length) :
    (hash_path p (.single s) σ).2.digest a = σ.digest a := by
  cases p with
  | none =>
      simp only [hash_path, HashStore.freshMd5, HashStore.digest]
      rw [updateAcc_getD_ne _ _ _ _ (Nat.ne_of_lt ha), getD_append_lt _ _ a ha]
  | some b =>
      simp only [hash_path, HashStore.copy, HashStore.digest]
      rw [updateAcc_getD_ne _ _ _ _ (Nat.ne_of_lt ha), getD_append_lt _ _ a ha]

/-- A many-segments `hash_path` call with a non-empty list allocates the
next free address and leaves every live accumulator's digest untouched. -/
theorem hash_path_many_preserved (p : Option Nat) (segs : List Seg)
    (hne : segs ≠ []) (σ : HashStore) (a : Nat) (ha : a < σ.accs.length) :
    (hash_path p (.many segs) σ).1 = σ.accs.length
      ∧ (hash_path p (.many segs) σ).2.digest a = σ.digest a := by
  have hlen : ¬(segs.length = 0) := fun h => hne (List.length_eq_zero.mp h)
  constructor
  · cases p <;> simp only [hash_path, HashStore.freshMd5, HashStore.copy, if_neg hlen]
  · cases p with
    | none =>
        simp only [hash_path, HashStore.freshMd5, HashStore.digest, if_neg hlen]
        rw [foldl_updateAcc_getD_ne _ _ _ _ (Nat.ne_of_lt ha), getD_append_lt _ _ a ha]
    | some b =>
        simp only [hash_path, HashStore.copy, HashStore.digest, if_neg hlen]
        rw [foldl_updateAcc_getD_ne _ _ _ _ (Nat.ne_of_lt ha), getD_append_lt _ _ a ha]

/-- C1.  Path-hash composition law for `common.hash_path`: extending with a
one-element list produces the same accumulator heap and address as
extending with that segment directly (so in particular equal digests);
extending an existing accumulator with an empty sequence returns the very
same address and an untouched heap (no copy); and any non-empty extension
(single segment or non-empty sequence) allocates the next free address —
hence an object distinct from every live accumulator — and does not change
the digest of any live accumulator, in particular not the prefix's. -/
theorem hash_path_composition_law (σ : HashStore) (p : Option Nat) (s : Seg)
    (segs : List Seg) (hne : segs ≠ []) (a : Nat) (ha : a < σ.accs.length) :
    (hash_path p (.many [s]) σ = hash_path p (.single s) σ)
    ∧ (hash_path (some a) (.many []) σ = (a, σ))
    ∧ ((hash_path p (.single s) σ).1 = σ.accs.length
        ∧ (hash_path p (.single s) σ).2.digest a = σ.digest a)
    ∧ ((hash_path p (.many segs) σ).1 = σ.accs.length
        ∧ (hash_path p (.many segs) σ).2.digest a = σ.digest a) := by
  refine ⟨by cases p <;> rfl, rfl,
    ⟨by cases p <;> rfl, hash_path_single_digest_preserved p s σ a ha⟩,
    hash_path_many_preserved p segs hne σ a ha⟩

/-- Witness for C1 at a concrete heap holding one live accumulator. -/
theorem hash_path_composition_law_witness :
    ([Seg.int 0] ≠ ([] : List Seg)) ∧ 0 < (HashStore.mk [[]]).accs.length
    ∧ ((hash_path (some 0) (.many [Seg.str "x"]) ⟨[[]]⟩
          = hash_path (some 0) (.single (Seg.str "x")) ⟨[[]]⟩)
      ∧ (hash_path (some 0) (.many []) ⟨[[]]⟩ = (0, ⟨[[]]⟩))
      ∧ ((hash_path (some 0) (.single (Seg.str "x")) ⟨[[]]⟩).1
            = (HashStore.mk [[]]).accs.length
          ∧ (hash_path (some 0) (.single (Seg.str "x")) ⟨[[]]⟩).2.digest 0
            = (HashStore.mk [[]]).digest 0)
      ∧ ((hash_path (some 0) (.many [Seg.int 0]) ⟨[[]]⟩).1
            = (HashStore.mk [[]]).accs.length
          ∧ (hash_path (some 0) (.many [Seg.int 0]) ⟨[[]]⟩).2.digest 0
            = (HashStore.mk [[]]).digest 0)) :=
  ⟨by decide, by decide,
    hash_path_composition_law ⟨[[]]⟩ (some 0) (.str "x") [Seg.int 0] (by decide) 0
      (by decide)⟩

/-! ## Primitive value synthesis (`primitiving.py`)

The synthesizer functions only ever read an accumulator through `digest()`
and `hexdigest()`.  For them we use a value-level view of an accumulator:
its absorbed byte stream (`PathHash`); `digest` is the MD5 of that stream
and `hexdigest` its hexadecimal rendering, exactly as in `hashlib`. -/

/-- A hash accumulator seen as a value: its absorbed byte stream. -/
structure PathHash where
  absorbed : Bytes
deriving DecidableEq

/-- `CanHash.digest` for the value-level view. -/
def PathHash.digestBytes (h : PathHash) : Bytes := md5 h.absorbed

/-- `CanHash.hexdigest` for the value-level view. -/
def PathHash.hexdigest (h : PathHash) : String := bytesToHex h.digestBytes

/-- The recurring expression `int(path_hash.hexdigest()[:8], base=16)`. -/
def hexPrefixInt (h : PathHash) : Nat := intOfHex (h.hexdigest.data.take 8)

/-- `primitiving.generate_bool`: the leading 32 hexadecimal bits taken
modulo two. -/
def generate_bool (pathHash : PathHash) : Bool := hexPrefixInt pathHash % 2 == 0

/-- `primitiving.generate_int`: the leading 8 hexadecimal digits parsed as
an integer. -/
def generate_int (pathHash : PathHash) : Nat := hexPrefixInt pathHash

/-- `primitiving.generate_int64`. -/
def generate_int64 (pathHash : PathHash) : Nat :=
  hexPrefixInt pathHash % (2 ^ 63 - 1)

/-- `primitiving.generate_float`: `float(number) / 100`.  The quotient is
modelled as an exact rational; CPython rounds it to the nearest IEEE
double, a deterministic function of the same integer. -/
def generate_float (pathHash : PathHash) : ℚ := (hexPrefixInt pathHash : ℚ) / 100

/-- The module constant `_RULER_STR` as characters. -/
def rulerChars : List Char := ['1', '2', '3', '4', '5', '6', '7', '8', '9', '0']

/-- The module constant `_RULER_BYTES`. -/
def rulerBytes : Bytes := [49, 50, 51, 52, 53, 54, 55, 56, 57, 48]

/-- `primitiving.generate_str_padding`: whole rulers for each ten plus the
leading part of a ruler for the remainder.  The argument is an `Int` with
Python floor-division semantics (a negative request yields the
`length mod 10` ruler characters, as in CPython). -/
def generate_str_padding (length : Int) : String :=
  ⟨(List.replicate (length.fdiv 10).toNat rulerChars).flatten
    ++ rulerChars.take (length.fmod 10).toNat⟩

/-- `primitiving.generate_bytes_padding`. -/
def generate_bytes_padding (length : Int) : Bytes :=
  (List.replicate (length.fdiv 10).toNat rulerBytes).flatten
    ++ rulerBytes.take (length.fmod 10).toNat

/-- `primitiving.generate_str_of_exact_len`. -/
def generate_str_of_exact_len (hexdigest : String) (length : Nat) : String :=
  if length < 12 then hexdigest.take length
  else if length ≤ 10 + hexdigest.length then
    "something_" ++ hexdigest.take (length - 10)
  else
    let pfx := "something_" ++ hexdigest
    pfx ++ generate_str_padding ((length : Int) - pfx.length)

/-- `primitiving.generate_str`. -/
def generate_str (pathHash : PathHash) (minLen maxLen : Option Nat) : String :=
  let hexdigest := pathHash.hexdigest
  let default := "something_" ++ hexdigest.take 8
  match minLen, maxLen with
  | none, none => default
  | some minL, none =>
      if minL ≤ default.length then default
      else generate_str_of_exact_len hexdigest minL
  | none, some maxL =>
      if default.length < maxL then default
      else generate_str_of_exact_len hexdigest maxL
  | some minL, some maxL =>
      if minL ≤ default.length ∧ default.length ≤ maxL then default
      else generate_str_of_exact_len hexdigest minL

/-- `primitiving.choose_value`: the entry at the hexadecimal-prefix integer
modulo the number of choices.  An empty choice list raises
`ZeroDivisionError` in Python, modelled as `none`. -/
def choose_value {T : Type} (pathHash : PathHash) (choice : List T) : Option T :=
  choice.get? (hexPrefixInt pathHash % choice.length)

/-- A catalog entry of the frozen pattern-example tables: ordered
`name ↦ example` maps of positive and negative examples. -/
structure PatternExamples where
  positives : List (String × String)
  negatives : List (String × String)

/-- `primitiving.generate_str_satisfying_pattern`, over the frozen-example
catalog `byPattern` (the module-level table `BY_PATTERN`, passed here as an
argument); a pattern absent from the catalog raises (`Except.error`). -/
def generate_str_satisfying_pattern (byPattern : String → Option PatternExamples)
    (pathHash : PathHash) (pattern : String) : Except String String :=
  match byPattern pattern with
  | none => .error ("Unexpected pattern not covered in the frozen examples: " ++ pattern)
  | some examples =>
      match choose_value pathHash (examples.positives.map (·.2)) with
      | some v => .ok v
      | none => .error "ZeroDivisionError"

/-- `primitiving.generate_time_of_day`. -/
def generate_time_of_day (pathHash : PathHash) : String :=
  let number := hexPrefixInt pathHash
  let remainder := number
  let hours := remainder / 3600 % 24
  let remainder := remainder % 3600
  let minutes := remainder / 60 % 60
  let seconds := remainder % 60
  let fraction := number % 1000000
  let pad2 := fun (n : Nat) => if n < 10 then "0" ++ toString n else toString n
  pad2 hours ++ ":" ++ pad2 minutes ++ ":" ++ pad2 seconds ++ "." ++ toString fraction

/-- Python slice `b[:k]` for bytes with a possibly negative bound. -/
def pySliceTo (b : Bytes) (k : Int) : Bytes :=
  if k < 0 then b.take ((b.length : Int) + k).toNat else b.take k.toNat

/-- The `while length < count` loop of `primitiving.generate_bytes`,
translated with explicit fuel; `none` means the fuel ran out, i.e. the
loop has not terminated within `fuel` iterations.  Faithful to the source,
including `remaining = length - count` (sic). -/
def generateBytesLoop : Nat → List Bytes → Int → Int → Bytes → Option Bytes
  | 0, _, _, _, _ => none
  | fuel + 1, parts, length, count, current =>
      if length < count then
        let remaining : Int := length - count
        if (current.length : Int) < remaining then
          generateBytesLoop fuel (parts ++ [current]) (length + current.length)
            count (md5 current)
        else
          generateBytesLoop fuel (parts ++ [pySliceTo current remaining])
            (length + remaining) count current
      else
        some parts.flatten

/-- `primitiving.generate_bytes`.  The result is `none` exactly when the
internal `while` loop fails to terminate within `fuel` iterations. -/
def generate_bytes (fuel : Nat) (pathHash : PathHash)
    (minLen maxLen : Option Nat) : Option Bytes :=
  let digest := pathHash.digestBytes
  let defaultLen := 11
  let count : Nat :=
    match minLen, maxLen with
    | none, none => defaultLen
    | some minL, none => minL
    | none, some maxL => min maxL defaultLen
    | some minL, some _ => minL
  if count ≤ digest.length then some (digest.take count)
  else generateBytesLoop fuel [] 0 (count : Int) digest

/-- Byte-identical digests give identical hexadecimal digests
(`hexdigest()` is `digest().hex()`). -/
theorem hexdigest_of_digest (a b : PathHash) (h : a.digestBytes = b.digestBytes) :
    a.hexdigest = b.hexdigest := by
  unfold PathHash.hexdigest; rw [h]

/-- C2.  Every primitive synthesis function is deterministic in the digest:
two accumulators with byte-identical digests produce byte-identical outputs
under equal remaining arguments (length bounds, fuel, pattern, catalog and
choice list). -/
theorem primitive_synthesis_deterministic {T : Type} (a b : PathHash)
    (byPattern : String → Option PatternExamples) (pattern : String)
    (minLen maxLen : Option Nat) (fuel : Nat) (choice : List T)
    (h : a.digestBytes = b.digestBytes) :
    generate_bool a = generate_bool b
    ∧ generate_int a = generate_int b
    ∧ generate_int64 a = generate_int64 b
    ∧ generate_float a = generate_float b
    ∧ generate_str a minLen maxLen = generate_str b minLen maxLen
    ∧ generate_bytes fuel a minLen maxLen = generate_bytes fuel b minLen maxLen
    ∧ generate_str_satisfying_pattern byPattern a pattern
        = generate_str_satisfying_pattern byPattern b pattern
    ∧ generate_time_of_day a = generate_time_of_day b
    ∧ choose_value a choice = choose_value b choice := by
  have hx : a.hexdigest = b.hexdigest := hexdigest_of_digest a b h
  have hp : hexPrefixInt a = hexPrefixInt b := by unfold hexPrefixInt; rw [hx]
  refine ⟨?_, ?_, ?_, ?_, ?_, ?_, ?_, ?_, ?_⟩
  · unfold generate_bool; rw [hp]
  · unfold generate_int; rw [hp]
  · unfold generate_int64; rw [hp]
  · unfold generate_float; rw [hp]
  · unfold generate_str; rw [hx]
  · unfold generate_bytes; rw [h]
  · unfold generate_str_satisfying_pattern choose_value; rw [hp]
  · unfold generate_time_of_day; rw [hp]
  · unfold choose_value; rw [hp]

/-- Witness for C2 at two concrete accumulators with equal digests. -/
theorem primitive_synthesis_deterministic_witness :
    (PathHash.mk []).digestBytes = (PathHash.mk []).digestBytes
    ∧ (generate_bool ⟨[]⟩ = generate_bool ⟨[]⟩
      ∧ generate_int ⟨[]⟩ = generate_int ⟨[]⟩
      ∧ generate_int64 ⟨[]⟩ = generate_int64 ⟨[]⟩
      ∧ generate_float ⟨[]⟩ = generate_float ⟨[]⟩
      ∧ generate_str ⟨[]⟩ none none = generate_str ⟨[]⟩ none none
      ∧ generate_bytes 0 ⟨[]⟩ none none = generate_bytes 0 ⟨[]⟩ none none
      ∧ generate_str_satisfying_pattern (fun _ => none) ⟨[]⟩ "p"
          = generate_str_satisfying_pattern (fun _ => none) ⟨[]⟩ "p"
      ∧ generate_time_of_day ⟨[]⟩ = generate_time_of_day ⟨[]⟩
      ∧ choose_value ⟨[]⟩ ([] : List Nat) = choose_value ⟨[]⟩ ([] : List Nat)) :=
  ⟨rfl, primitive_synthesis_deterministic ⟨[]⟩ ⟨[]⟩ (fun _ => none) "p" none none 0
    ([] : List Nat) rfl⟩

/-- The claim's reading of `choose_value`, written from the claim's own
words for comparison with the source translation: the index is the integer
value of the *whole* hash digest modulo the number of choices. -/
def choose_value_claimed {T : Type} (pathHash : PathHash) (choice : List T) :
    Option T :=
  choice.get? (intOfHex pathHash.hexdigest.data % choice.length)

set_option maxRecDepth 4096 in
/-- Counterexample for C3 as stated: for the accumulator of the path
`['a']` (absorbed bytes `/'a'`, MD5 digest `617a607a...b757`) and two
choices, the source's selection — the first eight hexadecimal digits
modulo 2, giving index 0 — differs from the claimed whole-digest value
modulo 2, giving index 1. -/
theorem choose_value_counterexample :
    choose_value ⟨segmentBytes (Seg.str "a")⟩ ["x", "y"]
      ≠ choose_value_claimed ⟨segmentBytes (Seg.str "a")⟩ ["x", "y"] := by
  decide

/-- C3 (amended).  `choose_value` returns the element at index
`n mod len(choice)` where `n` is the integer value of the *first eight
hexadecimal digits* of the digest; in particular the result is a member of
the choice sequence whenever it is non-empty. -/
theorem choose_value_indexing {T : Type} (pathHash : PathHash)
    (choice : List T) (hne : choice ≠ []) :
    ∃ hi : hexPrefixInt pathHash % choice.length < choice.length,
      choose_value pathHash choice
          = some (choice.get ⟨hexPrefixInt pathHash % choice.length, hi⟩)
        ∧ choice.get ⟨hexPrefixInt pathHash % choice.length, hi⟩ ∈ choice := by
  have hpos : 0 < choice.length := List.length_pos.mpr hne
  have hi : hexPrefixInt pathHash % choice.length < choice.length :=
    Nat.mod_lt _ hpos
  exact ⟨hi, by unfold choose_value; rw [List.get?_eq_get hi], List.get_mem _ _ _⟩

/-- Witness for C3's amended statement on a concrete choice list. -/
theorem choose_value_indexing_witness :
    (["x", "y"] ≠ ([] : List String))
    ∧ ∃ hi : hexPrefixInt ⟨[]⟩ % (["x", "y"] : List String).length
          < (["x", "y"] : List String).length,
        choose_value ⟨[]⟩ ["x", "y"]
            = some ((["x", "y"] : List String).get
                ⟨hexPrefixInt ⟨[]⟩ % (["x", "y"] : List String).length, hi⟩)
          ∧ (["x", "y"] : List String).get
              ⟨hexPrefixInt ⟨[]⟩ % (["x", "y"] : List String).length, hi⟩
            ∈ (["x", "y"] : List String) :=
  ⟨by decide, choose_value_indexing ⟨[]⟩ ["x", "y"] (by decide)⟩

/-- Once the loop counter of `generate_bytes` is non-positive while the
requested count is positive, `remaining = length - count` stays negative,
the slice appended is empty, the counter only decreases, and the loop never
exits: no fuel suffices. -/
theorem generateBytesLoop_diverges (fuel : Nat) (parts : List Bytes)
    (length count : Int) (current : Bytes) (hl : length ≤ 0) (hc : 0 < count) :
    generateBytesLoop fuel parts length count current = none := by
  induction fuel generalizing parts length current with
  | zero => rfl
  | succ fuel ih =>
      have hlt : length < count := lt_of_le_of_lt hl hc
      have hrem : length - count < 0 := by omega
      have hbranch : ¬ ((current.length : Int) < length - count) := by
        have : (0 : Int) ≤ (current.length : Int) := Int.ofNat_nonneg _
        omega
      simp only [generateBytesLoop, if_pos hlt, if_neg hbranch]
      exact ih _ _ _ (by omega)

/-- Every MD5 digest has sixteen bytes. -/
theorem md5_length (msg : Bytes) : (md5 msg).length = 16 := by
  unfold md5
  generalize (chunks64 (md5Pad msg)).foldl md5Chunk
    (1732584193, 4023233417, 2562383102, 271733878) = t
  rcases t with ⟨a, b, c, d⟩
  rfl

/-- C7 (code bug).  `generate_bytes` with `min_len = 17` and no `max_len`
never returns, for any path hash and any amount of fuel: the requested
count 17 exceeds the 16-byte MD5 digest, the loop is entered, and
`remaining = length - count` (instead of `count - length`) drives the
counter to minus infinity.  The function's own length postcondition and
final assertion are therefore unreachable for any `min_len > 16`. -/
theorem generate_bytes_min_len_17_never_returns (fuel : Nat) (pathHash : PathHash) :
    generate_bytes fuel pathHash (some 17) none = none := by
  have h16 : ¬ ((17 : Nat) ≤ pathHash.digestBytes.length) := by
    unfold PathHash.digestBytes; rw [md5_length]; decide
  unfold generate_bytes
  simp only [if_neg h16]
  exact generateBytesLoop_diverges fuel [] 0 17 _ le_rfl (by decide)

/-! ## Instance dereferencing (`common.py`)

`dereference_instance` walks a `container` following property names and
list indices; its local variable `something` is typed `Any`.  We model the
Python values it can meet: `None` (unset optional attributes), primitives,
enumeration literals, model instances and lists.  In Python, `str`, `bytes`
and `list` are `collections.abc.Sequence`s; indexing a `str` yields a
one-character `str` and indexing `bytes` yields an `int`.  A negative index
beyond the length raises `IndexError`, which escapes the function; an
escaping exception is modelled as the outer `none`. -/

/-- A Python value reachable while walking an instance tree. -/
inductive PyVal where
  | pynone : PyVal
  | vbool : Bool → PyVal
  | vint : Int → PyVal
  | vstr : String → PyVal
  | vbytes : Bytes → PyVal
  | venum : String → PyVal
  | inst : String → List (String × PyVal) → PyVal
  | vlist : List PyVal → PyVal

/-- `isinstance(x, collections.abc.Sequence)`. -/
def isPySequence : PyVal → Bool
  | .vstr _ => true
  | .vbytes _ => true
  | .vlist _ => true
  | _ => false

/-- `len(x)` for the sequences above. -/
def pySeqLen : PyVal → Nat
  | .vstr s => s.length
  | .vbytes b => b.length
  | .vlist l => l.length
  | _ => 0

/-- Resolve a Python index against a length: nonnegative indices must be
below the length, negative indices wrap from the end, and anything else is
an `IndexError` (`none`). -/
def pyWrapIndex (len : Nat) (n : Int) : Option Nat :=
  if 0 ≤ n then (if n < (len : Int) then some n.toNat else none)
  else if -(len : Int) ≤ n then some ((len : Int) + n).toNat else none

/-- `x[i]` for a resolved, in-range index. -/
def pySeqItem : PyVal → Nat → PyVal
  | .vstr s, i => .vstr ⟨[s.data.getD i ' ']⟩
  | .vbytes b, i => .vint (b.getD i 0)
  | .vlist l, i => l.getD i .pynone
  | v, _ => v

/-- `str(segment)` as used by `instance_path_as_posix`. -/
def str_of_seg : Seg → String
  | .int n => toString n
  | .str s => s

/-- `common.instance_path_as_posix`. -/
def instance_path_as_posix (path : List Seg) : String :=
  "/" ++ String.intercalate "/" (path.map str_of_seg)

/-- A plain rendering of a value for error-message interpolation.  CPython
interpolates the object's default `str()` (which for model instances
includes a memory address); no claim inspects the message text. -/
def pyShow : PyVal → String
  | .pynone => "None"
  | .vbool b => if b then "True" else "False"
  | .vint n => toString n
  | .vstr s => s
  | .vbytes _ => "bytes"
  | .venum s => s
  | .inst cn _ => "instance of " ++ cn
  | .vlist _ => "list"

/-- The traversal loop of `dereference_instance`: `i` counts consumed
segments (for the `path[:i]` sub-path in messages), `rest` is what is left
to follow.  The outer `none` is an escaping `IndexError`. -/
def derefGo (path : List Seg) : Nat → PyVal → List Seg →
    Option (Option PyVal × Option String)
  | _, something, [] =>
      match something with
      | .inst cn props => some (some (.inst cn props), none)
      | _ =>
          some (none, some ("Expected an instance of aas_types.Class, but got: "
            ++ pyShow something ++ " on path " ++ instance_path_as_posix path))
  | i, something, .int n :: rest =>
      if ¬ isPySequence something then
        some (none, some ("Expected a sequence at "
          ++ instance_path_as_posix (path.take i) ++ ", but got: "
          ++ pyShow something ++ " on path " ++ instance_path_as_posix path))
      else if (pySeqLen something : Int) ≤ n then
        some (none, some ("The sequence at " ++ instance_path_as_posix (path.take i)
          ++ " has only " ++ toString (pySeqLen something)
          ++ " element(s), but we want to access index " ++ toString n
          ++ " on path " ++ instance_path_as_posix path))
      else
        match pyWrapIndex (pySeqLen something) n with
        | some idx => derefGo path (i + 1) (pySeqItem something idx) rest
        | none => none
  | i, something, .str s :: rest =>
      match something with
      | .inst cn props =>
          match (props.find? (·.1 = s)) with
          | some pv => derefGo path (i + 1) pv.2 rest
          | none =>
              some (none, some ("The instance at "
                ++ instance_path_as_posix (path.take i)
                ++ " does not have the attribute " ++ pyReprStr s
                ++ " on path " ++ instance_path_as_posix path))
      | _ =>
          some (none, some ("Expected an instance at "
            ++ instance_path_as_posix (path.take i) ++ ", but got: "
            ++ pyShow something ++ " on path " ++ instance_path_as_posix path))

/-- `common.dereference_instance`. -/
def dereference_instance (container : PyVal) (path : List Seg) :
    Option (Option PyVal × Option String) :=
  derefGo path 0 container path

/-- `common.must_dereference_instance`: raise `ValueError` (`Except.error`)
on an error message; an escaping exception stays the outer `none`. -/
def must_dereference_instance (container : PyVal) (path : List Seg) :
    Option (Except String PyVal) :=
  match dereference_instance container path with
  | none => none
  | some (something, err) =>
      match err with
      | some e => some (.error e)
      | none =>
          match something with
          | some v => some (.ok v)
          | none => none

/-- On paths with only nonnegative indices the traversal always returns a
pair with exactly one component set. -/
theorem derefGo_total (path : List Seg) (rest : List Seg)
    (hnn : ∀ n : Int, Seg.int n ∈ rest → 0 ≤ n) (i : Nat) (something : PyVal) :
    ∃ pr, derefGo path i something rest = some pr
      ∧ ((∃ v, pr = (some v, none)) ∨ (∃ e, pr = (none, some e))) := by
  induction rest generalizing i something with
  | nil =>
      cases something
      case inst cn props => exact ⟨_, rfl, .inl ⟨_, rfl⟩⟩
      all_goals exact ⟨_, rfl, .inr ⟨_, rfl⟩⟩
  | cons seg rest ih =>
      have hrest : ∀ n : Int, Seg.int n ∈ rest → 0 ≤ n := fun n hn =>
        hnn n (List.mem_cons_of_mem _ hn)
      cases seg with
      | int n =>
          have hn : 0 ≤ n := hnn n (List.mem_cons_self _ _)
          by_cases hseq : isPySequence something
          · by_cases hlen : (pySeqLen something : Int) ≤ n
            · exact ⟨_, by simp [derefGo, hseq, hlen] <;> rfl, .inr ⟨_, rfl⟩⟩
            · have hidx : pyWrapIndex (pySeqLen something) n
                  = some n.toNat := by
                unfold pyWrapIndex
                rw [if_pos hn, if_pos (lt_of_not_le hlen)]
              obtain ⟨pr, hpr, hshape⟩ :=
                ih hrest (i + 1) (pySeqItem something n.toNat)
              refine ⟨pr, ?_, hshape⟩
              simp [derefGo, hseq, hlen, hidx, hpr]
          · exact ⟨_, by simp [derefGo, hseq] <;> rfl, .inr ⟨_, rfl⟩⟩
      | str s =>
          cases something
          case inst cn props =>
            cases hfind : props.find? (·.1 = s) with
            | none => exact ⟨_, by simp [derefGo, hfind] <;> rfl, .inr ⟨_, rfl⟩⟩
            | some pv =>
                obtain ⟨pr, hpr, hshape⟩ := ih hrest (i + 1) pv.2
                exact ⟨pr, by simp [derefGo, hfind, hpr], hshape⟩
          all_goals exact ⟨_, rfl, .inr ⟨_, rfl⟩⟩

/-- Counterexample for C10 as stated: with a container holding a one-element
list, the path `["submodels", -2]` passes the `len(sequence) <= segment`
guard (true only for nonnegative overruns) and `something[-2]` raises
`IndexError`, so `dereference_instance` returns neither an instance nor an
error message. -/
theorem dereference_instance_counterexample :
    (dereference_instance
        (.inst "Environment" [("submodels", .vlist [.inst "Submodel" []])])
        [.str "submodels", .int (-2)]).isNone = true := by
  decide

/-- C10 (amended).  For every container and every path whose integer
segments are nonnegative, `dereference_instance` returns exactly one of a
dereferenced instance or an error message, and `must_dereference_instance`
returns the instance when dereferencing succeeds and raises `ValueError`
exactly when `dereference_instance` returns an error. -/
theorem dereference_exactly_one (container : PyVal) (path : List Seg)
    (hnn : ∀ n : Int, Seg.int n ∈ path → 0 ≤ n) :
    ∃ pr, dereference_instance container path = some pr
      ∧ ((∃ v, pr = (some v, none)
            ∧ must_dereference_instance container path = some (.ok v))
        ∨ (∃ e, pr = (none, some e)
            ∧ must_dereference_instance container path = some (.error e))) := by
  obtain ⟨pr, hpr, hshape⟩ := derefGo_total path path hnn 0 container
  refine ⟨pr, hpr, ?_⟩
  rcases hshape with ⟨v, hv⟩ | ⟨e, he⟩
  · refine .inl ⟨v, hv, ?_⟩
    unfold must_dereference_instance
    rw [show dereference_instance container path = some pr from hpr, hv]
  · refine .inr ⟨e, he, ?_⟩
    unfold must_dereference_instance
    rw [show dereference_instance container path = some pr from hpr, he]

/-- Witness for C10's amended statement on a concrete container and path. -/
theorem dereference_exactly_one_witness :
    (∀ n : Int, Seg.int n ∈ [Seg.str "submodels", Seg.int 0] → 0 ≤ n)
    ∧ ∃ pr,
        dereference_instance
            (.inst "Environment" [("submodels", .vlist [.inst "Submodel" []])])
            [.str "submodels", .int 0] = some pr
        ∧ ((∃ v, pr = (some v, none)
              ∧ must_dereference_instance
                  (.inst "Environment"
                    [("submodels", .vlist [.inst "Submodel" []])])
                  [.str "submodels", .int 0] = some (.ok v))
          ∨ (∃ e, pr = (none, some e)
              ∧ must_dereference_instance
                  (.inst "Environment"
                    [("submodels", .vlist [.inst "Submodel" []])])
                  [.str "submodels", .int 0] = some (.error e))) :=
  ⟨by intro n hn; simp at hn; omega,
    dereference_exactly_one _ _ (by intro n hn; simp at hn; omega)⟩

/-! ## The repair pass driver (`fixing.py`)

`fix(root)` runs the `_Handyman` visitor once over `root` (a tree-sized
in-place mutation, modelled as a function on the instance state), then asks
the external verification oracle for the residual violations and raises an
`AssertionError` carrying the violation list and a dump of the
preserialized instance if any remain.  The visitor, the oracle
(`aas_core3.verification.verify`, an external collaborator) and the
preserialize-and-dump composition are parameters of the embedding; the
control flow of `fix` itself is translated from the source. -/

/-- One `(path, cause)` violation reported by the verification oracle. -/
structure Violation where
  path : String
  cause : String

/-- The payload of the `AssertionError` raised by `fix`. -/
structure FixFatal where
  violations : List Violation
  dump : String

/-- The collaborators of `fix` over an instance state `α`. -/
structure FixEnv (α : Type) where
  visitWithContext : α → α
  verify : α → List Violation
  preserializeDump : α → String

/-- `fixing.fix`: one repair pass, then verification; zero violations means
a normal return, otherwise the structured fatal error. -/
def fix {α : Type} (env : FixEnv α) (root : α) : Except FixFatal Unit :=
  let fixedRoot := env.visitWithContext root
  let errors := env.verify fixedRoot
  if 0 < errors.length then
    .error { violations := errors, dump := env.preserializeDump fixedRoot }
  else
    .ok ()

/-- C4.  `fix` applies the repair pass exactly once (the single
`visitWithContext` application below) and then verifies: it returns
normally exactly when the oracle reports no violations on the repaired
instance, and otherwise raises a fatal error carrying precisely the
oracle's violation list and the dump of the repaired, preserialized
instance — it never returns normally while violations remain. -/
theorem fix_verifies_after_one_pass {α : Type} (env : FixEnv α) (root : α) :
    match fix env root with
    | .ok _ => env.verify (env.visitWithContext root) = []
    | .error e =>
        e.violations = env.verify (env.visitWithContext root)
        ∧ e.violations ≠ []
        ∧ e.dump = env.preserializeDump (env.visitWithContext root) := by
  by_cases h : 0 < (env.verify (env.visitWithContext root)).length
  · have heq : fix env root = .error
        { violations := env.verify (env.visitWithContext root),
          dump := env.preserializeDump (env.visitWithContext root) } := by
      unfold fix; rw [if_pos h]
    rw [heq]
    refine ⟨rfl, fun hnil => ?_, rfl⟩
    have hnil2 : env.verify (env.visitWithContext root) = [] := hnil
    rw [hnil2] at h
    exact absurd h (by decide)
  · have heq : fix env root = .ok () := by unfold fix; rw [if_neg h]
    rw [heq]
    exact List.length_eq_zero.mp (Nat.eq_zero_of_not_pos h)

/-! ## The containment class graph (`ontology.py`)

`_compute_relationship_map` scans every concrete class's properties and
records, in an ordered dictionary keyed by (source name, target name), a
`PropertyRelationship` for non-list class properties and a
`ListPropertyRelationship` for items of list properties, resolving
abstract annotations to their concrete descendants and concrete
annotations to themselves plus their concrete descendants.  A direct
property is never overwritten by a list property, and overwrites a
previously recorded list property.  `_compute_shortest_paths_from_environment`
then weighs direct edges 1 and list edges 2. -/

/-- A class annotation target: an abstract class (with its concrete
descendants) or a concrete class (with its own concrete descendants). -/
inductive ClsRef where
  | abstractCls : List String → ClsRef
  | concreteCls : String → List String → ClsRef

/-- The concrete classes an annotation can stand for: descendants only for
an abstract class, the class itself plus descendants for a concrete one. -/
def ClsRef.targets : ClsRef → List String
  | .abstractCls descs => descs
  | .concreteCls n descs => n :: descs

/-- A type annotation beneath `Optional`: a list of class items, a class,
or anything else (primitives, enumerations, lists of enumerations). -/
inductive TAnno where
  | listOfCls : ClsRef → TAnno
  | ourCls : ClsRef → TAnno
  | otherAnno : TAnno

/-- A class property as the relationship scan sees it. -/
structure PropDef where
  name : String
  tanno : TAnno

/-- A concrete class of the symbol table. -/
structure ConcreteClassDef where
  name : String
  properties : List PropDef

/-- One entry of `symbol_table.our_types`: a concrete class, or any other
our-type (abstract class, enumeration, primitive), which the scan skips. -/
inductive OurTypeDef where
  | concreteType : ConcreteClassDef → OurTypeDef
  | otherType : OurTypeDef

/-- `ontology.PropertyRelationship` / `ontology.ListPropertyRelationship`. -/
inductive Relationship where
  | propertyRel : String → Relationship
  | listPropertyRel : String → Relationship

/-- The ordered relationship dictionary. -/
abbrev RelMap := List ((String × String) × Relationship)

/-- `OrderedDict.get`. -/
def relGet : RelMap → (String × String) → Option Relationship
  | [], _ => none
  | e :: rest, k => if e.1 = k then some e.2 else relGet rest k

/-- `OrderedDict.__setitem__`: replace in place, else append. -/
def relSet : RelMap → (String × String) → Relationship → RelMap
  | [], k, v => [(k, v)]
  | e :: rest, k, v => if e.1 = k then (k, v) :: rest else e :: relSet rest k v

/-- The list-property branch: record only when no edge exists yet. -/
def relInsertList (m : RelMap) (k : String × String) (propName : String) : RelMap :=
  match relGet m k with
  | none => relSet m k (.listPropertyRel propName)
  | some _ => m

/-- The direct-property branch: record when no edge exists or only a
list-property edge exists (property edges are kept, being shorter). -/
def relInsertDirect (m : RelMap) (k : String × String) (propName : String) : RelMap :=
  match relGet m k with
  | none => relSet m k (.propertyRel propName)
  | some (.listPropertyRel _) => relSet m k (.propertyRel propName)
  | some (.propertyRel _) => m

/-- Scan of one property of a concrete class. -/
def relProcessProp (srcName : String) (m : RelMap) (p : PropDef) : RelMap :=
  match p.tanno with
  | .listOfCls r =>
      r.targets.foldl (fun m2 tgt => relInsertList m2 (srcName, tgt) p.name) m
  | .ourCls r =>
      r.targets.foldl (fun m2 tgt => relInsertDirect m2 (srcName, tgt) p.name) m
  | .otherAnno => m

/-- `ontology._compute_relationship_map`. -/
def compute_relationship_map (symbolTable : List OurTypeDef) : RelMap :=
  symbolTable.foldl
    (fun m t =>
      match t with
      | .concreteType c => c.properties.foldl (relProcessProp c.name) m
      | .otherType => m)
    []

/-- The edge weight assigned by
`ontology._compute_shortest_paths_from_environment`: direct property edges
cost 1, list-property edges cost 2. -/
def edgeWeight : Relationship → Nat
  | .propertyRel _ => 1
  | .listPropertyRel _ => 2

/-- Whether a property relates its class to `b` through a non-list class
annotation (directly or via abstract substitution). -/
def directHits (p : PropDef) (b : String) : Bool :=
  match p.tanno with
  | .ourCls r => decide (b ∈ r.targets)
  | _ => false

/-- Whether a property relates its class to `b` as an item of a list. -/
def listHits (p : PropDef) (b : String) : Bool :=
  match p.tanno with
  | .listOfCls r => decide (b ∈ r.targets)
  | _ => false

/-- The shape of a recorded edge: absent, list-property, or property. -/
inductive RelKind where
  | noneK : RelKind
  | listK : RelKind
  | directK : RelKind
deriving DecidableEq

/-- The kind of an optional relationship. -/
def kindOf : Option Relationship → RelKind
  | none => .noneK
  | some (.propertyRel _) => .directK
  | some (.listPropertyRel _) => .listK

/-- Names of the concrete classes of a symbol table. -/
def concreteNames (symbolTable : List OurTypeDef) : List String :=
  symbolTable.filterMap (fun t =>
    match t with
    | .concreteType c => some c.name
    | .otherType => none)

/-- How a list-property insertion changes the kind at its own key. -/
def upgradeList : RelKind → RelKind
  | .noneK => .listK
  | s => s

/-- How scanning one property changes the kind at key `(src, B)`. -/
def stepKind (B : String) (s : RelKind) (p : PropDef) : RelKind :=
  if directHits p B then .directK
  else
    match s with
    | .noneK => if listHits p B then .listK else .noneK
    | sk => sk

/-- The kind at `(src, B)` after scanning a property list, folded. -/
def classKindFold (B : String) (s : RelKind) (props : List PropDef) : RelKind :=
  props.foldl (stepKind B) s

theorem relGet_relSet_self (m : RelMap) (k : String × String) (v : Relationship) :
    relGet (relSet m k v) k = some v := by
  induction m with
  | nil => simp [relSet, relGet]
  | cons e rest ih =>
      by_cases h : e.1 = k
      · simp [relSet, relGet, h]
      · simp [relSet, relGet, h, ih]

theorem relGet_relSet_ne (m : RelMap) (k k' : String × String) (v : Relationship)
    (h : k' ≠ k) : relGet (relSet m k v) k' = relGet m k' := by
  induction m with
  | nil => simp [relSet, relGet, Ne.symm h]
  | cons e rest ih =>
      by_cases he : e.1 = k
      · subst he
        simp [relSet, relGet, Ne.symm h, h]
      · by_cases he' : e.1 = k'
        · simp [relSet, relGet, he, he', h]
        · simp [relSet, relGet, he, he', h, ih]

theorem kind_relInsertList_self (m : RelMap) (k : String × String) (pn : String) :
    kindOf (relGet (relInsertList m k pn) k) = upgradeList (kindOf (relGet m k)) := by
  unfold relInsertList
  cases h : relGet m k with
  | none => simp [relGet_relSet_self, h, kindOf, upgradeList]
  | some r => cases r <;> simp [h, kindOf, upgradeList]

theorem kind_relInsertDirect_self (m : RelMap) (k : String × String) (pn : String) :
    kindOf (relGet (relInsertDirect m k pn) k) = .directK := by
  unfold relInsertDirect
  cases h : relGet m k with
  | none => simp [relGet_relSet_self, kindOf]
  | some r => cases r <;> simp [relGet_relSet_self, h, kindOf]

theorem relInsertList_get_ne (m : RelMap) (k k' : String × String) (pn : String)
    (h : k' ≠ k) : relGet (relInsertList m k pn) k' = relGet m k' := by
  unfold relInsertList
  cases relGet m k with
  | none => exact relGet_relSet_ne m k k' _ h
  | some r => rfl

theorem relInsertDirect_get_ne (m : RelMap) (k k' : String × String) (pn : String)
    (h : k' ≠ k) : relGet (relInsertDirect m k pn) k' = relGet m k' := by
  unfold relInsertDirect
  cases relGet m k with
  | none => exact relGet_relSet_ne m k k' _ h
  | some r => cases r <;> first | exact relGet_relSet_ne m k k' _ h | rfl

theorem upgradeList_idem (s : RelKind) : upgradeList (upgradeList s) = upgradeList s := by
  cases s <;> rfl

theorem listTargetFold_kind (targets : List String) (src B pn : String) (m : RelMap) :
    kindOf (relGet
        (targets.foldl (fun m2 tgt => relInsertList m2 (src, tgt) pn) m) (src, B))
      = if B ∈ targets then upgradeList (kindOf (relGet m (src, B)))
        else kindOf (relGet m (src, B)) := by
  induction targets generalizing m with
  | nil => simp
  | cons t rest ih =>
      rw [List.foldl_cons, ih]
      by_cases ht : t = B
      · subst ht
        rw [kind_relInsertList_self, if_pos (List.mem_cons_self t rest)]
        by_cases hr : t ∈ rest
        · rw [if_pos hr]; exact upgradeList_idem _
        · rw [if_neg hr]
      · rw [relInsertList_get_ne m (src, t) (src, B) pn
          (fun he => ht ((congrArg Prod.snd he).symm))]
        have hbt : ¬(B = t) := fun h => ht h.symm
        by_cases hB : B ∈ rest
        · rw [if_pos hB, if_pos (List.mem_cons_of_mem t hB)]
        · rw [if_neg hB, if_neg (by simp [List.mem_cons, hbt, hB])]

theorem directTargetFold_kind (targets : List String) (src B pn : String) (m : RelMap) :
    kindOf (relGet
        (targets.foldl (fun m2 tgt => relInsertDirect m2 (src, tgt) pn) m) (src, B))
      = if B ∈ targets then .directK
        else kindOf (relGet m (src, B)) := by
  induction targets generalizing m with
  | nil => simp
  | cons t rest ih =>
      rw [List.foldl_cons, ih]
      by_cases ht : t = B
      · subst ht
        rw [if_pos (List.mem_cons_self t rest)]
        by_cases hr : t ∈ rest
        · rw [if_pos hr]
        · rw [if_neg hr, kind_relInsertDirect_self]
      · rw [relInsertDirect_get_ne m (src, t) (src, B) pn
          (fun he => ht ((congrArg Prod.snd he).symm))]
        have hbt : ¬(B = t) := fun h => ht h.symm
        by_cases hB : B ∈ rest
        · rw [if_pos hB, if_pos (List.mem_cons_of_mem t hB)]
        · rw [if_neg hB, if_neg (by simp [List.mem_cons, hbt, hB])]

theorem listTargetFold_get_ne (targets : List String) (src pn : String)
    (k : String × String) (hk : k.1 ≠ src) (m : RelMap) :
    relGet (targets.foldl (fun m2 tgt => relInsertList m2 (src, tgt) pn) m) k
      = relGet m k := by
  induction targets generalizing m with
  | nil => rfl
  | cons t rest ih =>
      rw [List.foldl_cons, ih,
        relInsertList_get_ne m (src, t) k pn (fun he => hk (congrArg Prod.fst he))]

theorem directTargetFold_get_ne (targets : List String) (src pn : String)
    (k : String × String) (hk : k.1 ≠ src) (m : RelMap) :
    relGet (targets.foldl (fun m2 tgt => relInsertDirect m2 (src, tgt) pn) m) k
      = relGet m k := by
  induction targets generalizing m with
  | nil => rfl
  | cons t rest ih =>
      rw [List.foldl_cons, ih,
        relInsertDirect_get_ne m (src, t) k pn (fun he => hk (congrArg Prod.fst he))]

theorem relProcessProp_kind (src B : String) (m : RelMap) (p : PropDef) :
    kindOf (relGet (relProcessProp src m p) (src, B))
      = stepKind B (kindOf (relGet m (src, B))) p := by
  cases hp : p.tanno with
  | listOfCls r =>
      simp only [relProcessProp, hp]
      rw [listTargetFold_kind]
      simp only [stepKind, directHits, listHits, hp]
      by_cases hc : B ∈ r.targets
      · simp only [if_pos hc]
        cases kindOf (relGet m (src, B)) <;> simp [upgradeList, hc]
      · simp only [if_neg hc]
        cases kindOf (relGet m (src, B)) <;> simp [upgradeList, hc]
  | ourCls r =>
      simp only [relProcessProp, hp]
      rw [directTargetFold_kind]
      simp only [stepKind, directHits, listHits, hp]
      by_cases hc : B ∈ r.targets
      · simp [hc]
      · simp only [if_neg hc]
        cases kindOf (relGet m (src, B)) <;> simp [hc]
  | otherAnno =>
      simp only [relProcessProp, hp, stepKind, directHits, listHits]
      cases kindOf (relGet m (src, B)) <;> simp

theorem relProcessProp_get_ne (src : String) (k : String × String) (hk : k.1 ≠ src)
    (m : RelMap) (p : PropDef) :
    relGet (relProcessProp src m p) k = relGet m k := by
  unfold relProcessProp
  cases p.tanno with
  | listOfCls r => exact listTargetFold_get_ne _ _ _ k hk m
  | ourCls r => exact directTargetFold_get_ne _ _ _ k hk m
  | otherAnno => rfl

theorem procClass_kind (src B : String) (props : List PropDef) (m : RelMap) :
    kindOf (relGet (props.foldl (relProcessProp src) m) (src, B))
      = classKindFold B (kindOf (relGet m (src, B))) props := by
  induction props generalizing m with
  | nil => rfl
  | cons p rest ih =>
      rw [List.foldl_cons, ih, relProcessProp_kind src B m p]
      rfl

theorem procClass_get_ne (src : String) (k : String × String) (hk : k.1 ≠ src)
    (props : List PropDef) (m : RelMap) :
    relGet (props.foldl (relProcessProp src) m) k = relGet m k := by
  induction props generalizing m with
  | nil => rfl
  | cons p rest ih => rw [List.foldl_cons, ih, relProcessProp_get_ne src k hk m p]

/-- Closed form of the per-class kind fold: a direct hit anywhere forces a
property edge; otherwise a list hit upgrades an absent edge. -/
theorem classKindFold_closed (B : String) (s : RelKind) (props : List PropDef) :
    classKindFold B s props
      = if props.any (fun p => directHits p B) then .directK
        else
          match s with
          | .noneK => if props.any (fun p => listHits p B) then .listK else .noneK
          | sk => sk := by
  induction props generalizing s with
  | nil => cases s <;> rfl
  | cons p rest ih =>
      rw [classKindFold, List.foldl_cons, show List.foldl (stepKind B)
          (stepKind B s p) rest = classKindFold B (stepKind B s p) rest from rfl, ih]
      by_cases hd : directHits p B
      · simp [stepKind, hd, List.any_cons]
      · by_cases hl : listHits p B
        · cases s <;> simp [stepKind, hd, hl, List.any_cons]
        · cases s <;> simp [stepKind, hd, hl, List.any_cons]

theorem concreteNames_cons_concrete (c : ConcreteClassDef) (rest : List OurTypeDef) :
    concreteNames (.concreteType c :: rest) = c.name :: concreteNames rest := by
  simp [concreteNames]

theorem concreteNames_cons_other (rest : List OurTypeDef) :
    concreteNames (.otherType :: rest) = concreteNames rest := by
  simp [concreteNames]

/-- A member concrete class contributes its name to `concreteNames`. -/
theorem mem_concreteNames {st : List OurTypeDef} {c : ConcreteClassDef}
    (h : OurTypeDef.concreteType c ∈ st) : c.name ∈ concreteNames st :=
  List.mem_filterMap.mpr ⟨_, h, rfl⟩

/-- The scan step of `compute_relationship_map` for one symbol-table entry. -/
def relProcessType (m : RelMap) (t : OurTypeDef) : RelMap :=
  match t with
  | .concreteType c => c.properties.foldl (relProcessProp c.name) m
  | .otherType => m

theorem compute_relationship_map_eq (st : List OurTypeDef) :
    compute_relationship_map st = st.foldl relProcessType [] := rfl

/-- Classes whose name differs from `k.1` never touch key `k`. -/
theorem symTableFold_get_ne (st : List OurTypeDef) (k : String × String) :
    ∀ (_ : ∀ n ∈ concreteNames st, n ≠ k.1) (m : RelMap),
    relGet (st.foldl relProcessType m) k = relGet m k := by
  induction st with
  | nil => intro _ m; rfl
  | cons t rest ih =>
      intro hall m
      rw [List.foldl_cons]
      cases t with
      | concreteType c =>
          have hc : c.name ≠ k.1 := hall c.name
            (by rw [concreteNames_cons_concrete]; exact List.mem_cons_self _ _)
          rw [ih (fun n hn => hall n
              (by rw [concreteNames_cons_concrete]; exact List.mem_cons_of_mem _ hn)),
            relProcessType, procClass_get_ne c.name k (Ne.symm hc) c.properties m]
      | otherType =>
          exact ih (fun n hn => hall n (by rw [concreteNames_cons_other]; exact hn)) m

/-- Kind of the recorded edge `(A, B)` after the full scan: exactly the
per-class fold of the unique concrete class named `A`, started from an
absent edge. -/
theorem compute_relationship_map_kind (st : List OurTypeDef)
    (c : ConcreteClassDef) (A B : String) (hnodup : (concreteNames st).Nodup)
    (hc : OurTypeDef.concreteType c ∈ st) (hA : c.name = A) :
    kindOf (relGet (compute_relationship_map st) (A, B))
      = classKindFold B .noneK c.properties := by
  subst hA
  rw [compute_relationship_map_eq]
  have main : ∀ (st' : List OurTypeDef), (concreteNames st').Nodup →
      OurTypeDef.concreteType c ∈ st' →
      ∀ m : RelMap, relGet m (c.name, B) = none →
      kindOf (relGet (st'.foldl relProcessType m) (c.name, B))
        = classKindFold B .noneK c.properties := by
    intro st'
    induction st' with
    | nil => intro _ hmem; cases hmem
    | cons t rest ih =>
        intro hnd hmem m hm
        rw [List.foldl_cons]
        cases t with
        | otherType =>
            rw [concreteNames_cons_other] at hnd
            have hmem' : OurTypeDef.concreteType c ∈ rest := by
              rcases List.mem_cons.mp hmem with h | h
              · exact OurTypeDef.noConfusion h
              · exact h
            exact ih hnd hmem' m hm
        | concreteType c' =>
            rw [concreteNames_cons_concrete, List.nodup_cons] at hnd
            by_cases hname : c'.name = c.name
            · have hcc : c' = c := by
                rcases List.mem_cons.mp hmem with h | h
                · injection h with h2; exact h2.symm
                · exact absurd (hname ▸ mem_concreteNames h) hnd.1
              subst hcc
              rw [relProcessType,
                symTableFold_get_ne rest (c'.name, B)
                  (fun n hn he => hnd.1 ((show n = c'.name from he) ▸ hn)) _,
                procClass_kind c'.name B c'.properties m, hm]
              rfl
            · have hmem' : OurTypeDef.concreteType c ∈ rest := by
                rcases List.mem_cons.mp hmem with h | h
                · injection h with h2
                  exact absurd (congrArg ConcreteClassDef.name h2).symm hname
                · exact h
              have hpres : relGet (relProcessType m (.concreteType c'))
                  (c.name, B) = none := by
                rw [relProcessType,
                  procClass_get_ne c'.name (c.name, B) (Ne.symm hname) c'.properties m,
                  hm]
              exact ih hnd.2 hmem' _ hpres
  exact main st hnodup hc [] rfl

theorem kindOf_eq_directK {o : Option Relationship} (h : kindOf o = .directK) :
    ∃ pn, o = some (.propertyRel pn) := by
  match o with
  | none => exact absurd h (by simp [kindOf])
  | some (.propertyRel pn) => exact ⟨pn, rfl⟩
  | some (.listPropertyRel pn) => exact absurd h (by simp [kindOf])

theorem kindOf_eq_listK {o : Option Relationship} (h : kindOf o = .listK) :
    ∃ pn, o = some (.listPropertyRel pn) := by
  match o with
  | none => exact absurd h (by simp [kindOf])
  | some (.propertyRel pn) => exact absurd h (by simp [kindOf])
  | some (.listPropertyRel pn) => exact ⟨pn, rfl⟩

theorem kindOf_eq_noneK {o : Option Relationship} (h : kindOf o = .noneK) :
    o = none := by
  match o with
  | none => rfl
  | some (.propertyRel pn) => exact absurd h (by simp [kindOf])
  | some (.listPropertyRel pn) => exact absurd h (by simp [kindOf])

/-- C8.  In the containment class graph, for concrete classes `A` (with
definition `c` in a symbol table with distinct concrete-class names) and
`B`: the recorded edge `A→B` is a weight-1 `PropertyRelationship` exactly
when some property of `A` reaches `B` through a non-list class annotation
(directly or via abstract substitution); it is a weight-2
`ListPropertyRelationship` exactly when `B` is reached only through list
properties; and whenever an edge is recorded at all, its weight is 1
precisely if a non-list property reaches `B` — so a direct property always
beats a list property, regardless of the order in which `A`'s properties
are scanned (the right-hand sides mention only which hits exist). -/
theorem relationship_map_weights (st : List OurTypeDef) (c : ConcreteClassDef)
    (A B : String) (hnodup : (concreteNames st).Nodup)
    (hc : OurTypeDef.concreteType c ∈ st) (hA : c.name = A) :
    ((∃ pn, relGet (compute_relationship_map st) (A, B)
          = some (.propertyRel pn))
        ↔ c.properties.any (fun p => directHits p B) = true)
    ∧ ((∃ pn, relGet (compute_relationship_map st) (A, B)
          = some (.listPropertyRel pn))
        ↔ (c.properties.any (fun p => listHits p B) = true
            ∧ c.properties.any (fun p => directHits p B) = false))
    ∧ (∀ r, relGet (compute_relationship_map st) (A, B) = some r →
        edgeWeight r
          = if c.properties.any (fun p => directHits p B) then 1 else 2) := by
  have hkind := compute_relationship_map_kind st c A B hnodup hc hA
  rw [classKindFold_closed] at hkind
  by_cases hd : c.properties.any (fun p => directHits p B)
  · rw [if_pos hd] at hkind
    obtain ⟨pn, ho⟩ := kindOf_eq_directK hkind
    refine ⟨⟨fun _ => hd, fun _ => ⟨pn, ho⟩⟩, ?_, ?_⟩
    · constructor
      · rintro ⟨pn', h2⟩
        rw [ho] at h2
        exact Relationship.noConfusion (Option.some.inj h2)
      · rintro ⟨_, hdf⟩
        rw [hd] at hdf
        exact Bool.noConfusion hdf
    · intro r hr
      rw [ho] at hr
      rw [← Option.some.inj hr, if_pos hd]
      rfl
  · rw [if_neg hd] at hkind
    have hdf : c.properties.any (fun p => directHits p B) = false :=
      eq_false_of_ne_true hd
    by_cases hl : c.properties.any (fun p => listHits p B)
    · rw [if_pos hl] at hkind
      obtain ⟨pn, ho⟩ := kindOf_eq_listK hkind
      refine ⟨?_, ⟨fun _ => ⟨hl, hdf⟩, fun _ => ⟨pn, ho⟩⟩, ?_⟩
      · constructor
        · rintro ⟨pn', h2⟩
          rw [ho] at h2
          exact Relationship.noConfusion (Option.some.inj h2)
        · intro hdt
          exact absurd hdt hd
      · intro r hr
        rw [ho] at hr
        rw [← Option.some.inj hr, if_neg hd]
        rfl
    · rw [if_neg hl] at hkind
      have ho := kindOf_eq_noneK hkind
      refine ⟨?_, ?_, ?_⟩
      · constructor
        · rintro ⟨pn', h2⟩
          rw [ho] at h2
          exact Option.noConfusion h2
        · intro hdt
          exact absurd hdt hd
      · constructor
        · rintro ⟨pn', h2⟩
          rw [ho] at h2
          exact Option.noConfusion h2
        · rintro ⟨hlt, _⟩
          exact absurd hlt hl
      · intro r hr
        rw [ho] at hr
        exact Option.noConfusion hr

/-- The two-class symbol table of the C8 witness: `E` reaches `B` both
through a direct property `a` and a list property `b`. -/
def witnessSymTable : List OurTypeDef :=
  [.concreteType ⟨"E", [⟨"a", .ourCls (.concreteCls "B" [])⟩,
      ⟨"b", .listOfCls (.concreteCls "B" [])⟩]⟩,
   .concreteType ⟨"B", []⟩]

/-- The class definition of `E` in the witness symbol table. -/
def witnessClassE : ConcreteClassDef :=
  ⟨"E", [⟨"a", .ourCls (.concreteCls "B" [])⟩,
    ⟨"b", .listOfCls (.concreteCls "B" [])⟩]⟩

/-- Witness for C8 on a concrete symbol table where both a direct and a
list property relate `E` to `B`. -/
theorem relationship_map_weights_witness :
    (concreteNames witnessSymTable).Nodup
    ∧ OurTypeDef.concreteType witnessClassE ∈ witnessSymTable
    ∧ witnessClassE.name = "E"
    ∧ (((∃ pn, relGet (compute_relationship_map witnessSymTable) ("E", "B")
            = some (.propertyRel pn))
          ↔ witnessClassE.properties.any (fun p => directHits p "B") = true)
      ∧ ((∃ pn, relGet (compute_relationship_map witnessSymTable) ("E", "B")
            = some (.listPropertyRel pn))
          ↔ (witnessClassE.properties.any (fun p => listHits p "B") = true
              ∧ witnessClassE.properties.any (fun p => directHits p "B") = false))
      ∧ (∀ r, relGet (compute_relationship_map witnessSymTable) ("E", "B") = some r →
          edgeWeight r
            = if witnessClassE.properties.any (fun p => directHits p "B") then 1
              else 2)) :=
  ⟨by decide, List.mem_cons_self _ _, rfl,
    relationship_map_weights witnessSymTable witnessClassE "E" "B" (by decide)
      (List.mem_cons_self _ _) rfl⟩

/-! ## Pre-serialization (`codegened/preserialization.py`, generated by
`dev_scripts/codegen/generate_preserialization.py`)

The generated `_Preserializer.transform_*` methods build, for each live
instance, a fresh mutable `Instance` object per node: primitive and
constrained-primitive properties copy by value, enumerations snapshot as
their literal `.value` string, nested instances recurse, and list
properties become a `ListOfInstances` of recursively transformed items;
unset optional properties are omitted.  Because the mutation engine then
modifies these `Instance` objects in place, we model them as a heap
(`PStore`, a list of nodes indexed by address) and `preserialize` as an
allocating translation of the pure instance tree.  The live `aas_types`
trees themselves are only ever deep-copied before modification, so they
are modelled as pure values (`AVal`). -/

/-- A primitive property value (`bool`, `int`, `float`, `str`, `bytes`;
floats do not occur among the mutated properties and the catalogued
`xs:` values are strings, so the float member is omitted). -/
inductive PrimV where
  | pbool : Bool → PrimV
  | pint : Int → PrimV
  | pstr : String → PrimV
  | pbytes : Bytes → PrimV
deriving DecidableEq

mutual
/-- A live `aas_types` value: a primitive, an enumeration literal, an
instance with its set properties in declaration order, or a list of
instances. -/
inductive AVal where
  | prim : PrimV → AVal
  | enumLit : String → AVal
  | inst : String → AProps → AVal
  | listOf : AList → AVal

/-- The set properties of a live instance. -/
inductive AProps where
  | nil : AProps
  | cons : String → AVal → AProps → AProps

/-- A list of live values. -/
inductive AList where
  | anil : AList
  | acons : AVal → AList → AList
end

/-- A pre-serialized property value in the heap: a primitive, an explicit
`None`, a reference to an `Instance` node, or a `ListOfInstances` of
references. -/
inductive PVal where
  | prim : PrimV → PVal
  | pnull : PVal
  | ref : Nat → PVal
  | listRef : List PVal → PVal

/-- One pre-serialized `Instance` object. -/
structure PNode where
  className : String
  props : List (String × PVal)

/-- The heap of pre-serialized `Instance` objects; the address is the
allocation order. -/
abbrev PStore := List PNode

mutual
/-- `preserialization.preserialize` on one value: allocates the
pre-serialized nodes of the whole subtree at the end of the store and
returns the pre-serialized value. -/
def preserializeVal : AVal → PStore → PVal × PStore
  | .prim v, σ => (.prim v, σ)
  | .enumLit s, σ => (.prim (.pstr s), σ)
  | .inst cn props, σ =>
      let r := preserializeProps props σ
      (.ref r.2.length, r.2 ++ [⟨cn, r.1⟩])
  | .listOf xs, σ =>
      let r := preserializeList xs σ
      (.listRef r.1, r.2)

/-- Pre-serialize the properties of one instance, left to right. -/
def preserializeProps : AProps → PStore → List (String × PVal) × PStore
  | .nil, σ => ([], σ)
  | .cons n v rest, σ =>
      let rv := preserializeVal v σ
      let rl := preserializeProps rest rv.2
      ((n, rv.1) :: rl.1, rl.2)

/-- Pre-serialize the items of a list property, left to right. -/
def preserializeList : AList → PStore → List PVal × PStore
  | .anil, σ => ([], σ)
  | .acons v rest, σ =>
      let rv := preserializeVal v σ
      let rl := preserializeList rest rv.2
      (rv.1 :: rl.1, rl.2)
end

mutual
/-- A pre-serialization read back out of the heap as a pure tree: the
"deep value" against which deep equality of snapshots is judged. -/
inductive PTree where
  | prim : PrimV → PTree
  | pnull : PTree
  | obj : String → PPropsT → PTree
  | plist : PListT → PTree

/-- Properties of a deep object node. -/
inductive PPropsT where
  | nil : PPropsT
  | cons : String → PTree → PPropsT → PPropsT

/-- Items of a deep list node. -/
inductive PListT where
  | nil : PListT
  | cons : PTree → PListT → PListT
end

mutual
/-- The deep tree that pre-serializing a live value must produce:
primitives copy, enumerations become their literal string, instances
become keyed objects, lists become list nodes. -/
def pureEmbed : AVal → PTree
  | .prim v => .prim v
  | .enumLit s => .prim (.pstr s)
  | .inst cn props => .obj cn (pureEmbedProps props)
  | .listOf xs => .plist (pureEmbedList xs)

def pureEmbedProps : AProps → PPropsT
  | .nil => .nil
  | .cons n v rest => .cons n (pureEmbed v) (pureEmbedProps rest)

def pureEmbedList : AList → PListT
  | .anil => .nil
  | .acons v rest => .cons (pureEmbed v) (pureEmbedList rest)
end

mutual
/-- `reprV σ pv t`: dereferenced through heap `σ`, the pre-serialized
value `pv` denotes the deep tree `t`. -/
def reprV (σ : PStore) : PVal → PTree → Prop
  | .prim v, .prim w => v = w
  | .pnull, .pnull => True
  | .ref a, .obj cn ps =>
      ∃ node, σ.get? a = some node ∧ node.className = cn ∧ reprProps σ node.props ps
  | .listRef vs, .plist ts => reprL σ vs ts
  | _, _ => False

def reprProps (σ : PStore) : List (String × PVal) → PPropsT → Prop
  | [], .nil => True
  | (n, pv) :: rest, .cons n' t rest' => n = n' ∧ reprV σ pv t ∧ reprProps σ rest rest'
  | _, _ => False

def reprL (σ : PStore) : List PVal → PListT → Prop
  | [], .nil => True
  | pv :: rest, .cons t rest' => reprV σ pv t ∧ reprL σ rest rest'
  | _, _ => False
end

theorem get?_append_left' {α : Type} (l₁ l₂ : List α) (n : Nat)
    (h : n < l₁.length) : (l₁ ++ l₂).get? n = l₁.get? n := by
  simp only [List.get?_eq_getElem?]
  exact List.getElem?_append_left h

theorem get?_append_self {α : Type} (l₁ l₂ : List α) (x : α) :
    (l₁ ++ x :: l₂).get? l₁.length = some x := by
  simp only [List.get?_eq_getElem?]
  rw [List.getElem?_append_right le_rfl]
  simp

mutual
/-- Denotation is stable under growing the heap at the end. -/
theorem reprV_append (σ τ : PStore) (pv : PVal) (t : PTree) (h : reprV σ pv t) :
    reprV (σ ++ τ) pv t := by
  match pv, t with
  | .prim v, .prim w => exact h
  | .pnull, .pnull => exact h
  | .ref a, .obj cn ps =>
      obtain ⟨node, hget, hcn, hprops⟩ := h
      have hlt : a < σ.length := by
        rcases List.get?_eq_some.mp hget with ⟨hl, _⟩
        exact hl
      exact ⟨node, by rw [get?_append_left' σ τ a hlt]; exact hget, hcn,
        reprProps_append σ τ node.props ps hprops⟩
  | .listRef vs, .plist ts => exact reprL_append σ τ vs ts h

theorem reprProps_append (σ τ : PStore) (l : List (String × PVal)) (ps : PPropsT)
    (h : reprProps σ l ps) : reprProps (σ ++ τ) l ps := by
  match l, ps with
  | [], .nil => exact h
  | (n, pv) :: rest, .cons n' t rest' =>
      obtain ⟨hn, hv, hrest⟩ := h
      exact ⟨hn, reprV_append σ τ pv t hv, reprProps_append σ τ rest rest' hrest⟩

theorem reprL_append (σ τ : PStore) (l : List PVal) (ts : PListT)
    (h : reprL σ l ts) : reprL (σ ++ τ) l ts := by
  match l, ts with
  | [], .nil => exact h
  | pv :: rest, .cons t rest' =>
      obtain ⟨hv, hrest⟩ := h
      exact ⟨reprV_append σ τ pv t hv, reprL_append σ τ rest rest' hrest⟩
end

mutual
/-- Pre-serializing only appends to the heap, and the result denotes the
pure deep tree of the live value — for any starting heap whatsoever. -/
theorem preserializeVal_spec (v : AVal) (σ : PStore) :
    (∃ τ, (preserializeVal v σ).2 = σ ++ τ)
    ∧ reprV (preserializeVal v σ).2 (preserializeVal v σ).1 (pureEmbed v) := by
  match v with
  | .prim w => exact ⟨⟨[], by simp [preserializeVal]⟩, rfl⟩
  | .enumLit s => exact ⟨⟨[], by simp [preserializeVal]⟩, rfl⟩
  | .inst cn props =>
      obtain ⟨⟨τ1, hext⟩, hrepr⟩ := preserializeProps_spec props σ
      refine ⟨⟨τ1 ++ [⟨cn, (preserializeProps props σ).1⟩], ?_⟩, ?_⟩
      · show (preserializeProps props σ).2 ++ _ = _
        rw [hext, List.append_assoc]
      · show reprV _ (.ref (preserializeProps props σ).2.length) (.obj cn _)
        refine ⟨⟨cn, (preserializeProps props σ).1⟩, ?_, rfl, ?_⟩
        · exact get?_append_self _ [] _
        · exact reprProps_append _ _ _ _ hrepr
  | .listOf xs =>
      obtain ⟨⟨τ1, hext⟩, hrepr⟩ := preserializeList_spec xs σ
      exact ⟨⟨τ1, hext⟩, hrepr⟩

theorem preserializeProps_spec (props : AProps) (σ : PStore) :
    (∃ τ, (preserializeProps props σ).2 = σ ++ τ)
    ∧ reprProps (preserializeProps props σ).2 (preserializeProps props σ).1
        (pureEmbedProps props) := by
  match props with
  | .nil => exact ⟨⟨[], by simp [preserializeProps]⟩, trivial⟩
  | .cons n v rest =>
      obtain ⟨⟨τ1, hext1⟩, hrepr1⟩ := preserializeVal_spec v σ
      obtain ⟨⟨τ2, hext2⟩, hrepr2⟩ :=
        preserializeProps_spec rest (preserializeVal v σ).2
      refine ⟨⟨τ1 ++ τ2, ?_⟩, rfl, ?_, ?_⟩
      · show (preserializeProps rest (preserializeVal v σ).2).2 = _
        rw [hext2, hext1, List.append_assoc]
      · show reprV (preserializeProps rest (preserializeVal v σ).2).2
          (preserializeVal v σ).1 (pureEmbed v)
        rw [hext2]
        exact reprV_append _ _ _ _ hrepr1
      · exact hrepr2

theorem preserializeList_spec (xs : AList) (σ : PStore) :
    (∃ τ, (preserializeList xs σ).2 = σ ++ τ)
    ∧ reprL (preserializeList xs σ).2 (preserializeList xs σ).1
        (pureEmbedList xs) := by
  match xs with
  | .anil => exact ⟨⟨[], by simp [preserializeList]⟩, trivial⟩
  | .acons v rest =>
      obtain ⟨⟨τ1, hext1⟩, hrepr1⟩ := preserializeVal_spec v σ
      obtain ⟨⟨τ2, hext2⟩, hrepr2⟩ :=
        preserializeList_spec rest (preserializeVal v σ).2
      refine ⟨⟨τ1 ++ τ2, ?_⟩, ?_, ?_⟩
      · show (preserializeList rest (preserializeVal v σ).2).2 = _
        rw [hext2, hext1, List.append_assoc]
      · show reprV (preserializeList rest (preserializeVal v σ).2).2
          (preserializeVal v σ).1 (pureEmbed v)
        rw [hext2]
        exact reprV_append _ _ _ _ hrepr1
      · exact hrepr2
end

/-! ## The mutation-based case generators (`generation.py`)

Each generator loops over the class's properties; for every eligible
property it re-preserializes the replica's container into the heap
(`# region Replicate`), applies exactly one in-place edit to the fresh
snapshot node of the focus instance (`# region Mutate`), and yields a
case.  Errors raised by the source (`NotImplementedError`, failed asserts,
`KeyError`) are modelled as `Except.error`.  The generator for value /
value-type examples instead deep-copies the live replica
(`Replica.replicate`), mutates the copy's focus instance and
preserializes the copy; the deep copy is modelled by a functional update
of the pure tree. -/

/-- Dictionary assignment on a property list: replace in place or append. -/
def assocSet : List (String × PVal) → String → PVal → List (String × PVal)
  | [], k, v => [(k, v)]
  | (n, w) :: rest, k, v =>
      if n = k then (k, v) :: rest else (n, w) :: assocSet rest k v

/-- `del properties[k]` (only ever called on a present key). -/
def assocDel : List (String × PVal) → String → List (String × PVal)
  | [], _ => []
  | (n, w) :: rest, k => if n = k then rest else (n, w) :: assocDel rest k

/-- Dictionary lookup on a property list. -/
def assocGetP (l : List (String × PVal)) (k : String) : Option PVal :=
  (l.find? (·.1 = k)).map (·.2)

/-- Set one property of the `Instance` object at address `a`. -/
def storeSetProp (σ : PStore) (a : Nat) (k : String) (v : PVal) : PStore :=
  match σ.get? a with
  | some node => σ.set a ⟨node.className, assocSet node.props k v⟩
  | none => σ

/-- Delete one property of the `Instance` object at address `a`. -/
def storeDelProp (σ : PStore) (a : Nat) (k : String) : PStore :=
  match σ.get? a with
  | some node => σ.set a ⟨node.className, assocDel node.props k⟩
  | none => σ

/-- Read one property of the `Instance` object at address `a`. -/
def storeGetProp (σ : PStore) (a : Nat) (k : String) : Option PVal :=
  match σ.get? a with
  | some node => assocGetP node.props k
  | none => none

/-- The address of the snapshot node of the focus instance: the model of
`instance_to_preserialized[replica.instance]`, resolved by walking the
recorded replica path inside the fresh snapshot (the two coincide because
case construction asserts the instance sits at that path). -/
def focusAddr (σ : PStore) : List Seg → PVal → Option Nat
  | [], pv =>
      match pv with
      | .ref a => some a
      | _ => none
  | .str s :: rest, pv =>
      match pv with
      | .ref a =>
          match σ.get? a with
          | some node =>
              match assocGetP node.props s with
              | some child => focusAddr σ rest child
              | none => none
          | none => none
      | _ => none
  | .int n :: rest, pv =>
      match pv with
      | .listRef vs =>
          if n < 0 then none
          else
            match vs.get? n.toNat with
            | some child => focusAddr σ rest child
            | none => none
      | _ => none

/-- A schema length constraint (`infer_for_schema.LenConstraint`). -/
structure LenConstraint where
  minValue : Option Int
  maxValue : Option Int

/-- What the generators need to know about one schema property. -/
structure GProp where
  name : String
  isOptional : Bool
  isListAnno : Bool
  enumLiterals : Option (List String)
deriving DecidableEq

/-- A minimal or maximal base case as the generators consume it: the live
container tree of its `Replica`, the recorded path to the focus instance,
the class's properties, and the property names present in the base
snapshot of the focus instance. -/
structure BaseCase where
  container : AVal
  path : List Seg
  clsProps : List GProp
  presPropNames : List String

/-- The projection of an emitted test case the claims speak about: its
kind, the snapshot of the container, and identifying metadata. -/
structure GCase where
  kindName : String
  preserializedContainer : PVal
  propertyName : Option String
  exampleName : Option String

/-- The `aas_types.Reference` instance preserialized as the wrong-typed
value in `_generate_type_violations`. -/
def typeViolationReference : AVal :=
  .inst "Reference"
    (.cons "type" (.enumLit "ExternalReference")
      (.cons "keys"
        (.listOf (.acons
          (.inst "Key"
            (.cons "type" (.enumLit "GlobalReference")
              (.cons "value" (.prim (.pstr "unexpected instance")) .nil)))
          .anil))
        .nil))

/-- `generation._generate_type_violations`. -/
def generate_type_violations (bc : BaseCase) : List GProp → PStore →
    List GCase × PStore
  | [], σ => ([], σ)
  | prop :: rest, σ =>
      if prop.name ∈ bc.presPropNames then
        let r := preserializeVal bc.container σ
        match focusAddr r.2 bc.path r.1 with
        | some fa =>
            if ¬ prop.isListAnno then
              let ru := preserializeVal typeViolationReference r.2
              let σ3 := storeSetProp ru.2 fa prop.name (.listRef [ru.1])
              let rr := generate_type_violations bc rest σ3
              (⟨"TypeViolation", r.1, some prop.name, none⟩ :: rr.1, rr.2)
            else
              let σ2 := storeSetProp r.2 fa prop.name
                (.prim (.pstr "Unexpected string value"))
              let rr := generate_type_violations bc rest σ2
              (⟨"TypeViolation", r.1, some prop.name, none⟩ :: rr.1, rr.2)
        | none => generate_type_violations bc rest r.2
      else generate_type_violations bc rest σ

/-- The XML-serializability pattern dropped before counting patterns. -/
def xmlSerializablePattern : String :=
  "^[\\x09\\x0A\\x0D\\x20-\\uD7FF\\uE000-\\uFFFD\\U00010000-\\U0010FFFF]*$"

/-- Replicate-and-substitute loop shared by the positive and negative
pattern-example cases: one fresh snapshot and one substitution per
catalogued example. -/
def patternExampleCases (bc : BaseCase) (kind : String) (propName : String) :
    List (String × String) → PStore → List GCase × PStore
  | [], σ => ([], σ)
  | (exName, exText) :: rest, σ =>
      let r := preserializeVal bc.container σ
      match focusAddr r.2 bc.path r.1 with
      | some fa =>
          let σ2 := storeSetProp r.2 fa propName (.prim (.pstr exText))
          let rr := patternExampleCases bc kind propName rest σ2
          (⟨kind, r.1, some propName, some exName⟩ :: rr.1, rr.2)
      | none => patternExampleCases bc kind propName rest r.2

/-- `generation._generate_positive_and_negative_pattern_examples`: the
per-property loop; raises (`Except.error`) when more than one non-XML
pattern constraint applies to a property, and on a catalog miss. -/
def generate_pattern_examples_loop (bc : BaseCase)
    (patternsByProp : List (String × List String))
    (byPattern : String → Option PatternExamples) :
    List GProp → PStore → Except String (List GCase) × PStore
  | [], σ => (.ok [], σ)
  | prop :: rest, σ =>
      if prop.name ∈ bc.presPropNames then
        match (patternsByProp.find? (·.1 = prop.name)).map (·.2) with
        | none => generate_pattern_examples_loop bc patternsByProp byPattern rest σ
        | some patterns =>
            let patternsNoXml := patterns.filter (· ≠ xmlSerializablePattern)
            if patternsNoXml.length = 0 then
              generate_pattern_examples_loop bc patternsByProp byPattern rest σ
            else if 1 < patternsNoXml.length then
              (.error ("The property " ++ prop.name
                ++ " has multiple patterns. We currently do not know how to "
                ++ "handle this case."), σ)
            else
              match byPattern (patternsNoXml.getD 0 "") with
              | none => (.error "KeyError in BY_PATTERN", σ)
              | some examples =>
                  let rp := patternExampleCases bc "PositivePatternExample"
                    prop.name examples.positives σ
                  let rn := patternExampleCases bc "PatternViolation"
                    prop.name examples.negatives rp.2
                  match generate_pattern_examples_loop bc patternsByProp byPattern
                      rest rn.2 with
                  | (.ok cs, σ3) => (.ok (rp.1 ++ rn.1 ++ cs), σ3)
                  | (.error e, σ3) => (.error e, σ3)
      else generate_pattern_examples_loop bc patternsByProp byPattern rest σ

/-- `generation._generate_positive_and_negative_pattern_examples`. -/
def generate_positive_and_negative_pattern_examples (bc : BaseCase)
    (patternsByProp : List (String × List String))
    (byPattern : String → Option PatternExamples) (σ : PStore) :
    Except String (List GCase) × PStore :=
  generate_pattern_examples_loop bc patternsByProp byPattern bc.clsProps σ

/-- `generation._generate_required_violations`. -/
def generate_required_violations (bc : BaseCase) : List GProp → PStore →
    List GCase × PStore
  | [], σ => ([], σ)
  | prop :: rest, σ =>
      if prop.name ∈ bc.presPropNames ∧ ¬ prop.isOptional then
        let r := preserializeVal bc.container σ
        match focusAddr r.2 bc.path r.1 with
        | some fa =>
            let σ2 := storeDelProp r.2 fa prop.name
            let rr := generate_required_violations bc rest σ2
            (⟨"RequiredViolation", r.1, some prop.name, none⟩ :: rr.1, rr.2)
        | none => generate_required_violations bc rest r.2
      else generate_required_violations bc rest σ

/-- `generation._generate_null_violations`. -/
def generate_null_violations (bc : BaseCase) : List GProp → PStore →
    List GCase × PStore
  | [], σ => ([], σ)
  | prop :: rest, σ =>
      if prop.name ∈ bc.presPropNames ∧ ¬ prop.isOptional then
        let r := preserializeVal bc.container σ
        match focusAddr r.2 bc.path r.1 with
        | some fa =>
            let σ2 := storeSetProp r.2 fa prop.name .pnull
            let rr := generate_null_violations bc rest σ2
            (⟨"NullViolation", r.1, some prop.name, none⟩ :: rr.1, rr.2)
        | none => generate_null_violations bc rest r.2
      else generate_null_violations bc rest σ

/-- The length the verifier cares about, for the three value shapes a
length constraint can apply to. -/
def pvalLen : PVal → Option Int
  | .prim (.pstr s) => some s.length
  | .prim (.pbytes b) => some b.length
  | .listRef vs => some vs.length
  | _ => none

/-- Python string slice `s[:k]` for `0 ≤ k`, over the character data. -/
def strTake (s : String) (k : Nat) : String := ⟨s.data.take k⟩

/-- The min-length mutation of `_generate_length_violations`: truncate the
string / bytes / list to `min_value - 1` elements (`none` models the
failing type assert). -/
def min_length_mutation (v : PVal) (minv : Int) : Option PVal :=
  match v with
  | .prim (.pstr s) => some (.prim (.pstr (strTake s (minv - 1).toNat)))
  | .prim (.pbytes b) => some (.prim (.pbytes (b.take (minv - 1).toNat)))
  | .listRef vs => some (.listRef (vs.take (minv - 1).toNat))
  | _ => none

/-- The max-length mutation of `_generate_length_violations`: pad the
string / bytes with `max_value - len + 1` filler elements, or repeat the
last list element that many times (`none` models the failing asserts:
wrong type, or an empty list). -/
def max_length_mutation (v : PVal) (maxv : Int) : Option PVal :=
  match v with
  | .prim (.pstr s) =>
      some (.prim (.pstr (s ++ generate_str_padding (maxv - s.length + 1))))
  | .prim (.pbytes b) =>
      some (.prim (.pbytes (b ++ generate_bytes_padding (maxv - b.length + 1))))
  | .listRef vs =>
      match vs.getLast? with
      | some lastV =>
          some (.listRef (vs ++ List.replicate (maxv - vs.length + 1).toNat lastV))
      | none => none
  | _ => none

/-- `generation._generate_length_violations`. -/
def generate_length_violations (bc : BaseCase)
    (lenByProp : List (String × LenConstraint)) :
    List GProp → PStore → Except String (List GCase) × PStore
  | [], σ => (.ok [], σ)
  | prop :: rest, σ =>
      if prop.name ∈ bc.presPropNames then
        match (lenByProp.find? (·.1 = prop.name)).map (·.2) with
        | none => generate_length_violations bc lenByProp rest σ
        | some lc =>
            let minStep : PStore → Except String (List GCase) × PStore := fun σ0 =>
              match lc.minValue with
              | some minv =>
                  if 0 < minv then
                    let r := preserializeVal bc.container σ0
                    match focusAddr r.2 bc.path r.1 with
                    | some fa =>
                        match storeGetProp r.2 fa prop.name with
                        | some pv =>
                            match min_length_mutation pv minv with
                            | some pv' =>
                                (.ok [⟨"MinLengthViolation", r.1, some prop.name,
                                  none⟩], storeSetProp r.2 fa prop.name pv')
                            | none =>
                                (.error "Only strings, bytes and lists expected", r.2)
                        | none => (.error "KeyError in properties", r.2)
                    | none => (.ok [], r.2)
                  else (.ok [], σ0)
              | none => (.ok [], σ0)
            let maxStep : PStore → Except String (List GCase) × PStore := fun σ0 =>
              match lc.maxValue with
              | some maxv =>
                  let r := preserializeVal bc.container σ0
                  match focusAddr r.2 bc.path r.1 with
                  | some fa =>
                      match storeGetProp r.2 fa prop.name with
                      | some pv =>
                          match max_length_mutation pv maxv with
                          | some pv' =>
                              (.ok [⟨"MaxLengthViolation", r.1, some prop.name,
                                none⟩], storeSetProp r.2 fa prop.name pv')
                          | none =>
                              (.error "Only non-empty strings, bytes and lists expected",
                                r.2)
                      | none => (.error "KeyError in properties", r.2)
                  | none => (.ok [], r.2)
              | none => (.ok [], σ0)
            match minStep σ with
            | (.error e, σ1) => (.error e, σ1)
            | (.ok cs1, σ1) =>
                match maxStep σ1 with
                | (.error e, σ2) => (.error e, σ2)
                | (.ok cs2, σ2) =>
                    match generate_length_violations bc lenByProp rest σ2 with
                    | (.ok cs3, σ3) => (.ok (cs1 ++ cs2 ++ cs3), σ3)
                    | (.error e, σ3) => (.error e, σ3)
      else generate_length_violations bc lenByProp rest σ

/-- The `while invalid_literal in literals` growth loop, with fuel; the
loop terminates because the literal set is finite, so `set.length + 1`
prefix growths always reach a fresh string. -/
def growInvalid (pfx : String) (lits : List String) : Nat → String → String
  | 0, cur => cur
  | fuel + 1, cur => if cur ∈ lits then growInvalid pfx lits fuel (pfx ++ cur) else cur

/-- `generation._generate_enum_violations` (no presence guard in the
source: every enumeration-typed property is mutated). -/
def generate_enum_violations (bc : BaseCase) : List GProp → PStore →
    List GCase × PStore
  | [], σ => ([], σ)
  | prop :: rest, σ =>
      match prop.enumLiterals with
      | some lits =>
          let r := preserializeVal bc.container σ
          match focusAddr r.2 bc.path r.1 with
          | some fa =>
              let invalid := growInvalid "so " lits (lits.length + 1)
                "totally utterly invalid"
              let σ2 := storeSetProp r.2 fa prop.name (.prim (.pstr invalid))
              let rr := generate_enum_violations bc rest σ2
              (⟨"EnumViolation", r.1, some prop.name, none⟩ :: rr.1, rr.2)
          | none => generate_enum_violations bc rest r.2
      | none => generate_enum_violations bc rest σ

/-- A `SetOfPrimitivesConstraint`: the primitive type tag (only `STR` is
implemented) and the allowed literal values. -/
structure SetPrimConstraint where
  isStrType : Bool
  literals : List String

/-- A `SetOfEnumerationLiteralsConstraint`: the allowed literals and the
enumeration's full literal list. -/
structure SetEnumConstraint where
  literals : List String
  enumerationLiterals : List String

/-- `generation._generate_violation_of_set_constraint_on_primitive_property`
(raises `NotImplementedError` for non-string primitives). -/
def generate_set_violation_on_primitive (bc : BaseCase)
    (setPrimByProp : List (String × SetPrimConstraint)) :
    List GProp → PStore → Except String (List GCase) × PStore
  | [], σ => (.ok [], σ)
  | prop :: rest, σ =>
      match (setPrimByProp.find? (·.1 = prop.name)).map (·.2) with
      | none => generate_set_violation_on_primitive bc setPrimByProp rest σ
      | some constraint =>
          let r := preserializeVal bc.container σ
          match focusAddr r.2 bc.path r.1 with
          | some fa =>
              if ¬ constraint.isStrType then
                (.error ("We haven't implemented the generation of non-strings "
                  ++ "outside a set of primitives."), r.2)
              else
                let value := growInvalid "really " constraint.literals
                  (constraint.literals.length + 1) "unexpected value"
                let σ2 := storeSetProp r.2 fa prop.name (.prim (.pstr value))
                match generate_set_violation_on_primitive bc setPrimByProp rest σ2 with
                | (.ok cs, σ3) =>
                    (.ok (⟨"SetViolation", r.1, some prop.name, none⟩ :: cs), σ3)
                | (.error e, σ3) => (.error e, σ3)
          | none => generate_set_violation_on_primitive bc setPrimByProp rest r.2

/-- `generation._generate_violation_of_set_constraint_on_enum_property`
(picks the first enumeration literal outside the allowed set; skips when
the set covers the whole enumeration). -/
def generate_set_violation_on_enum (bc : BaseCase)
    (setEnumByProp : List (String × SetEnumConstraint)) :
    List GProp → PStore → Except String (List GCase) × PStore
  | [], σ => (.ok [], σ)
  | prop :: rest, σ =>
      match (setEnumByProp.find? (·.1 = prop.name)).map (·.2) with
      | none => generate_set_violation_on_enum bc setEnumByProp rest σ
      | some constraint =>
          if constraint.enumerationLiterals.length = constraint.literals.length then
            generate_set_violation_on_enum bc setEnumByProp rest σ
          else
            let r := preserializeVal bc.container σ
            match focusAddr r.2 bc.path r.1 with
            | some fa =>
                match constraint.enumerationLiterals.find?
                    (fun lit => !(constraint.literals.contains lit)) with
                | some value =>
                    let σ2 := storeSetProp r.2 fa prop.name (.prim (.pstr value))
                    match generate_set_violation_on_enum bc setEnumByProp rest σ2 with
                    | (.ok cs, σ3) =>
                        (.ok (⟨"SetViolation", r.1, some prop.name, none⟩ :: cs), σ3)
                    | (.error e, σ3) => (.error e, σ3)
                | none =>
                    (.error "No literals of the enumeration are outside of the set",
                      r.2)
            | none => generate_set_violation_on_enum bc setEnumByProp rest r.2

/-- Attribute lookup on a live instance's property list. -/
def apropsGet : AProps → String → Option AVal
  | .nil, _ => none
  | .cons n v rest, k => if n = k then some v else apropsGet rest k

/-- Attribute assignment on a live instance's property list (replace in
place, or set a previously unset optional attribute). -/
def apropsSet : AProps → String → AVal → AProps
  | .nil, k, v => .cons k v .nil
  | .cons n w rest, k, v =>
      if n = k then .cons k v rest else .cons n w (apropsSet rest k v)

/-- Index into a live list value. -/
def alistGet : AList → Nat → Option AVal
  | .anil, _ => none
  | .acons v _, 0 => some v
  | .acons _ rest, n + 1 => alistGet rest n

/-- Replace an element of a live list value. -/
def alistSet : AList → Nat → AVal → AList
  | .anil, _, _ => .anil
  | .acons _ rest, 0, v => .acons v rest
  | .acons w rest, n + 1, v => .acons w (alistSet rest n v)

/-- Functionally modify the node at a path of a (deep-copied) live tree;
`none` models a dangling replica path (an assertion failure upstream). -/
def treeModify : List Seg → AVal → (AVal → Option AVal) → Option AVal
  | [], v, f => f v
  | .str s :: rest, v, f =>
      match v with
      | .inst cn props =>
          match apropsGet props s with
          | some child =>
              match treeModify rest child f with
              | some child' => some (.inst cn (apropsSet props s child'))
              | none => none
          | none => none
      | _ => none
  | .int n :: rest, v, f =>
      match v with
      | .listOf xs =>
          if n < 0 then none
          else
            match alistGet xs n.toNat with
            | some child =>
                match treeModify rest child f with
                | some child' => some (.listOf (alistSet xs n.toNat child'))
                | none => none
            | none => none
      | _ => none

/-- The mutation of `_generate_cases_for_value_and_value_types` on the
deep-copied focus instance: assert it is an `Extension`, `Qualifier` or
`Property`, then set `value_type` to the literal and `value` to the
catalogued example. -/
def setValueAndType (lit exampleText : String) : AVal → Option AVal
  | .inst cn props =>
      if cn = "Extension" ∨ cn = "Qualifier" ∨ cn = "Property" then
        some (.inst cn
          (apropsSet (apropsSet props "value_type" (.enumLit lit))
            "value" (.prim (.pstr exampleText))))
      else none
  | _ => none

/-- The per-example loop of the value / value-type case generation:
deep-copy the replica, mutate the copy's focus instance, preserialize the
copy; `none` models the failing assert (wrong focus class or dangling
path). -/
def valueExampleCases (bc : BaseCase) (kind lit : String) :
    List (String × String) → PStore → Option (List GCase × PStore)
  | [], σ => some ([], σ)
  | (exName, exVal) :: rest, σ =>
      match treeModify bc.path bc.container (setValueAndType lit exVal) with
      | none => none
      | some container' =>
          let r := preserializeVal container' σ
          match valueExampleCases bc kind lit rest r.2 with
          | none => none
          | some (cs, σ2) => some (⟨kind, r.1, none, some exName⟩ :: cs, σ2)

/-- `generation._generate_cases_for_value_and_value_types`: iterate every
`DataTypeDefXSD` literal and every catalogued positive and negative
example for it. -/
def generate_cases_for_value_and_value_types (bc : BaseCase)
    (xsCatalog : String → Option PatternExamples) :
    List String → PStore → Except String (List GCase) × PStore
  | [], σ => (.ok [], σ)
  | lit :: rest, σ =>
      match xsCatalog lit with
      | none => (.error ("The entry is missing for the value type " ++ lit), σ)
      | some examples =>
          match valueExampleCases bc "PositiveValueExample" lit
              examples.positives σ with
          | none => (.error "Expected Extension, Qualifier or Property", σ)
          | some (cs1, σ1) =>
              match valueExampleCases bc "InvalidValueExample" lit
                  examples.negatives σ1 with
              | none => (.error "Expected Extension, Qualifier or Property", σ1)
              | some (cs2, σ2) =>
                  match generate_cases_for_value_and_value_types bc xsCatalog
                      rest σ2 with
                  | (.ok cs3, σ3) => (.ok (cs1 ++ cs2 ++ cs3), σ3)
                  | (.error e, σ3) => (.error e, σ3)

/-- Everything the full mutation pass consumes: the maximal base case
`mc`, the minimal base case `bc`, the inferred constraint tables and the
frozen-example catalogs. -/
structure GenInputs where
  mc : BaseCase
  bc : BaseCase
  patternsByProp : List (String × List String)
  byPattern : String → Option PatternExamples
  lenByProp : List (String × LenConstraint)
  setPrimByProp : List (String × SetPrimConstraint)
  setEnumByProp : List (String × SetEnumConstraint)
  xsCatalog : String → Option PatternExamples
  xsdLiterals : List String

/-- Run every mutation-case generator in sequence on one heap: the type,
pattern, required, null, length, enum, set and value/value-type cases, in
the order `generate_all` derives them, threading the heap (and keeping it
even when a generator raises). -/
def run_all_mutation_generators (gi : GenInputs) (σ : PStore) : PStore :=
  let σ1 := (generate_type_violations gi.mc gi.mc.clsProps σ).2
  let σ2 := (generate_positive_and_negative_pattern_examples gi.mc
    gi.patternsByProp gi.byPattern σ1).2
  let σ3 := (generate_required_violations gi.bc gi.bc.clsProps σ2).2
  let σ4 := (generate_null_violations gi.bc gi.bc.clsProps σ3).2
  let σ5 := (generate_length_violations gi.mc gi.lenByProp gi.mc.clsProps σ4).2
  let σ6 := (generate_enum_violations gi.mc gi.mc.clsProps σ5).2
  let σ7 := (generate_set_violation_on_primitive gi.bc gi.setPrimByProp
    gi.bc.clsProps σ6).2
  let σ8 := (generate_set_violation_on_enum gi.bc gi.setEnumByProp
    gi.bc.clsProps σ7).2
  (generate_cases_for_value_and_value_types gi.bc gi.xsCatalog gi.xsdLiterals σ8).2

mutual
/-- A pre-serialized value denotes at most one deep tree: deep equality of
two snapshots is exactly denotation of the same tree. -/
theorem reprV_unique (σ : PStore) (pv : PVal) (t t' : PTree)
    (h : reprV σ pv t) (h' : reprV σ pv t') : t = t' := by
  match pv, t, t' with
  | .prim v, .prim w, .prim w' =>
      have h1 : v = w := h
      have h2 : v = w' := h'
      rw [← h1, ← h2]
  | .prim v, .prim w, .pnull => exact False.elim h'
  | .prim v, .prim w, .obj _ _ => exact False.elim h'
  | .prim v, .prim w, .plist _ => exact False.elim h'
  | .prim v, .pnull, _ => exact False.elim h
  | .prim v, .obj _ _, _ => exact False.elim h
  | .prim v, .plist _, _ => exact False.elim h
  | .pnull, .pnull, .pnull => rfl
  | .pnull, .pnull, .prim _ => exact False.elim h'
  | .pnull, .pnull, .obj _ _ => exact False.elim h'
  | .pnull, .pnull, .plist _ => exact False.elim h'
  | .pnull, .prim _, _ => exact False.elim h
  | .pnull, .obj _ _, _ => exact False.elim h
  | .pnull, .plist _, _ => exact False.elim h
  | .ref a, .obj cn ps, .obj cn' ps' =>
      have ⟨node, hget, hcn, hprops⟩ := h
      have ⟨node', hget', hcn', hprops'⟩ := h'
      have hnn : node = node' := Option.some.inj (hget ▸ hget')
      rw [← hcn, ← hcn', hnn,
        reprProps_unique σ node'.props ps ps' (hnn ▸ hprops) hprops']
  | .ref a, .obj cn ps, .prim _ => exact False.elim h'
  | .ref a, .obj cn ps, .pnull => exact False.elim h'
  | .ref a, .obj cn ps, .plist _ => exact False.elim h'
  | .ref a, .prim _, _ => exact False.elim h
  | .ref a, .pnull, _ => exact False.elim h
  | .ref a, .plist _, _ => exact False.elim h
  | .listRef vs, .plist ts, .plist ts' =>
      rw [reprL_unique σ vs ts ts' h h']
  | .listRef vs, .plist ts, .prim _ => exact False.elim h'
  | .listRef vs, .plist ts, .pnull => exact False.elim h'
  | .listRef vs, .plist ts, .obj _ _ => exact False.elim h'
  | .listRef vs, .prim _, _ => exact False.elim h
  | .listRef vs, .pnull, _ => exact False.elim h
  | .listRef vs, .obj _ _, _ => exact False.elim h

theorem reprProps_unique (σ : PStore) (l : List (String × PVal))
    (ps ps' : PPropsT) (h : reprProps σ l ps) (h' : reprProps σ l ps') :
    ps = ps' := by
  match l, ps, ps' with
  | [], .nil, .nil => rfl
  | [], .nil, .cons _ _ _ => exact False.elim h'
  | [], .cons _ _ _, _ => exact False.elim h
  | (n, pv) :: rest, .cons n1 t1 r1, .cons n2 t2 r2 =>
      have ⟨hn1, hv1, hr1⟩ := h
      have ⟨hn2, hv2, hr2⟩ := h'
      rw [← hn1, ← hn2, reprV_unique σ pv t1 t2 hv1 hv2,
        reprProps_unique σ rest r1 r2 hr1 hr2]
  | (n, pv) :: rest, .cons _ _ _, .nil => exact False.elim h'
  | (n, pv) :: rest, .nil, _ => exact False.elim h

theorem reprL_unique (σ : PStore) (l : List PVal) (ts ts' : PListT)
    (h : reprL σ l ts) (h' : reprL σ l ts') : ts = ts' := by
  match l, ts, ts' with
  | [], .nil, .nil => rfl
  | [], .nil, .cons _ _ => exact False.elim h'
  | [], .cons _ _, _ => exact False.elim h
  | pv :: rest, .cons t1 r1, .cons t2 r2 =>
      have ⟨hv1, hr1⟩ := h
      have ⟨hv2, hr2⟩ := h'
      rw [reprV_unique σ pv t1 t2 hv1 hv2, reprL_unique σ rest r1 r2 hr1 hr2]
  | pv :: rest, .cons _ _, .nil => exact False.elim h'
  | pv :: rest, .nil, _ => exact False.elim h
end

/-- C5.  Mutation isolation: running the whole battery of mutation-case
generators — type violations, pattern examples, required and null
violations, length violations, enum and set violations and
value/value-type examples — on the heap leaves the base cases intact: the
pre-serialization of the maximal replica's container and of the minimal
replica's container taken after all derived cases have been generated
denote exactly the same deep trees as the pre-serializations taken before
any mutation (namely the pure embeddings of the respective containers,
which the generators, operating only on fresh deep copies, never touch).
By `reprV_unique`, denoting the same tree is deep equality of the
snapshots. -/
theorem mutation_isolation (gi : GenInputs) (σ : PStore) :
    (reprV (preserializeVal gi.mc.container σ).2
        (preserializeVal gi.mc.container σ).1 (pureEmbed gi.mc.container)
      ∧ reprV (preserializeVal gi.mc.container (run_all_mutation_generators gi σ)).2
          (preserializeVal gi.mc.container (run_all_mutation_generators gi σ)).1
          (pureEmbed gi.mc.container))
    ∧ (reprV (preserializeVal gi.bc.container σ).2
        (preserializeVal gi.bc.container σ).1 (pureEmbed gi.bc.container)
      ∧ reprV (preserializeVal gi.bc.container (run_all_mutation_generators gi σ)).2
          (preserializeVal gi.bc.container (run_all_mutation_generators gi σ)).1
          (pureEmbed gi.bc.container)) :=
  ⟨⟨(preserializeVal_spec gi.mc.container σ).2,
    (preserializeVal_spec gi.mc.container _).2⟩,
   ⟨(preserializeVal_spec gi.bc.container σ).2,
    (preserializeVal_spec gi.bc.container _).2⟩⟩

/-- The padding generator delivers exactly the requested number of
characters (for nonnegative requests). -/
theorem generate_str_padding_length (k : Int) (hk : 0 ≤ k) :
    (generate_str_padding k).length = k.toNat := by
  have hq : 0 ≤ k.fdiv 10 := Int.fdiv_nonneg hk (by decide)
  have hr0 : 0 ≤ k.fmod 10 := Int.fmod_nonneg' k (by decide)
  have hr1 : k.fmod 10 < 10 := Int.fmod_lt_of_pos k (by decide)
  have hsplit : 10 * k.fdiv 10 + k.fmod 10 = k := Int.fdiv_add_fmod k 10
  have hruler : rulerChars.length = 10 := by decide
  simp only [generate_str_padding, String.length, List.length_append,
    List.length_flatten, List.map_replicate, hruler, List.sum_replicate,
    smul_eq_mul, List.length_take]
  omega

/-- The bytes padding generator delivers exactly the requested number of
bytes (for nonnegative requests). -/
theorem generate_bytes_padding_length (k : Int) (hk : 0 ≤ k) :
    (generate_bytes_padding k).length = k.toNat := by
  have hq : 0 ≤ k.fdiv 10 := Int.fdiv_nonneg hk (by decide)
  have hr0 : 0 ≤ k.fmod 10 := Int.fmod_nonneg' k (by decide)
  have hr1 : k.fmod 10 < 10 := Int.fmod_lt_of_pos k (by decide)
  have hsplit : 10 * k.fdiv 10 + k.fmod 10 = k := Int.fdiv_add_fmod k 10
  have hruler : rulerBytes.length = 10 := by decide
  simp only [generate_bytes_padding, List.length_append, List.length_flatten,
    List.map_replicate, hruler, List.sum_replicate, smul_eq_mul, List.length_take]
  omega

theorem strTake_length (s : String) (k : Nat) :
    (strTake s k).length = min k s.length := by
  cases s with
  | mk data =>
      show (data.take k).length = min k data.length
      simp [List.length_take]

theorem str_append_length (s t : String) :
    (s ++ t).length = s.length + t.length := by
  cases s with
  | mk a =>
      cases t with
      | mk b =>
          show (a ++ b).length = a.length + b.length
          exact List.length_append a b

/-- C6.  Length-violation boundary exactness: for a property value of a
maximal case (so its length `L` satisfies the constraint being violated,
and the lists the source asserts non-empty are non-empty), the
min-length mutation produces a value of length exactly `min_value - 1`
when `min_value > 0`, and the max-length mutation produces a value of
length exactly `max_value + 1` — padding strings and bytes with filler and
repeating the last list element. -/
theorem length_violation_boundary (v : PVal) (minv maxv L : Int)
    (hL : pvalLen v = some L) :
    (0 < minv → minv ≤ L →
      ∃ v', min_length_mutation v minv = some v'
        ∧ pvalLen v' = some (minv - 1))
    ∧ (1 ≤ L → L ≤ maxv →
      ∃ v', max_length_mutation v maxv = some v'
        ∧ pvalLen v' = some (maxv + 1)) := by
  match v with
  | .prim (.pstr s) =>
      have hLs : (s.length : Int) = L := by
        have := Option.some.inj hL
        exact this
      constructor
      · intro h1 h2
        refine ⟨_, rfl, ?_⟩
        simp only [pvalLen, strTake_length, Option.some.injEq]
        omega
      · intro h1 h2
        refine ⟨_, rfl, ?_⟩
        simp only [pvalLen, str_append_length, Option.some.injEq,
          generate_str_padding_length (maxv - (s.length : Int) + 1) (by omega)]
        omega
  | .prim (.pbytes b) =>
      have hLs : (b.length : Int) = L := Option.some.inj hL
      constructor
      · intro h1 h2
        refine ⟨_, rfl, ?_⟩
        simp only [pvalLen, List.length_take, Option.some.injEq]
        omega
      · intro h1 h2
        refine ⟨_, rfl, ?_⟩
        simp only [pvalLen, List.length_append, Option.some.injEq,
          generate_bytes_padding_length (maxv - (b.length : Int) + 1) (by omega)]
        omega
  | .listRef vs =>
      have hLs : (vs.length : Int) = L := Option.some.inj hL
      constructor
      · intro h1 h2
        refine ⟨_, rfl, ?_⟩
        simp only [pvalLen, List.length_take, Option.some.injEq]
        omega
      · intro h1 h2
        have hne : vs ≠ [] := by
          intro hnil
          rw [hnil] at hLs
          simp at hLs
          omega
        obtain ⟨lastV, hlast⟩ := Option.isSome_iff_exists.mp
          (List.getLast?_isSome.mpr hne)
        refine ⟨.listRef (vs ++ List.replicate (maxv - vs.length + 1).toNat lastV),
          ?_, ?_⟩
        · simp only [max_length_mutation, hlast]
        · simp only [pvalLen, List.length_append, List.length_replicate,
            Option.some.injEq]
          omega
  | .prim (.pbool _) => exact Option.noConfusion hL
  | .prim (.pint _) => exact Option.noConfusion hL
  | .pnull => exact Option.noConfusion hL
  | .ref _ => exact Option.noConfusion hL

/-- Witness for C6 on a five-character string property with
`minLength = 3` and `maxLength = 5`: the mutations have lengths exactly 2
and 6. -/
theorem length_violation_boundary_witness :
    pvalLen (.prim (.pstr "abcde")) = some 5
    ∧ ((0 < (3 : Int) → (3 : Int) ≤ 5 →
        ∃ v', min_length_mutation (.prim (.pstr "abcde")) 3 = some v'
          ∧ pvalLen v' = some ((3 : Int) - 1))
      ∧ ((1 : Int) ≤ 5 → (5 : Int) ≤ 5 →
        ∃ v', max_length_mutation (.prim (.pstr "abcde")) 5 = some v'
          ∧ pvalLen v' = some ((5 : Int) + 1))) :=
  ⟨by decide, length_violation_boundary (.prim (.pstr "abcde")) 3 5 5 (by decide)⟩

/-- The pattern constraints of a property with the XML-serializability
pattern discarded, as the generator counts them. -/
def nonXmlPatterns (patternsByProp : List (String × List String))
    (propName : String) : List String :=
  (((patternsByProp.find? (·.1 = propName)).map (·.2)).getD []).filter
    (· ≠ xmlSerializablePattern)

/-- The concrete base case of the C9 counterexample: one property `x`,
present in the snapshot. -/
def patternCounterexampleCase : BaseCase :=
  ⟨.prim (.pbool true), [], [⟨"x", false, false, none⟩], ["x"]⟩

/-- Pattern constraints giving property `x` two patterns: the XML
serializability pattern and one ordinary pattern. -/
def patternCounterexampleConstraints : List (String × List String) :=
  [("x", [xmlSerializablePattern, "p1"])]

/-- A catalog holding (empty) example tables for the ordinary pattern. -/
def patternCounterexampleCatalog : String → Option PatternExamples :=
  fun p => if p = "p1" then some ⟨[], []⟩ else none

/-- Counterexample for C9 as stated: the property `x` has two inferred
pattern constraints, yet generating pattern examples does not raise — the
XML-serializability pattern is discarded first, and with a single
remaining pattern the generator proceeds normally. -/
theorem pattern_examples_two_patterns_no_error :
    (nonXmlPatterns patternCounterexampleConstraints "x").length = 1
    ∧ (((patternCounterexampleConstraints.find? (·.1 = "x")).map (·.2)).getD
        []).length = 2
    ∧ (generate_positive_and_negative_pattern_examples patternCounterexampleCase
        patternCounterexampleConstraints patternCounterexampleCatalog []).1.isOk
      = true := by
  refine ⟨by decide, by decide, ?_⟩
  rfl

/-- The pattern-example loop raises whenever some property of the list is
present in the snapshot and keeps more than one non-XML pattern. -/
theorem pattern_loop_error (bc : BaseCase)
    (patternsByProp : List (String × List String))
    (byPattern : String → Option PatternExamples) :
    ∀ (props : List GProp) (σ : PStore),
      (∃ prop ∈ props, prop.name ∈ bc.presPropNames
        ∧ 1 < (nonXmlPatterns patternsByProp prop.name).length) →
      (generate_pattern_examples_loop bc patternsByProp byPattern props σ).1.isOk
        = false := by
  intro props
  induction props with
  | nil =>
      intro σ h
      obtain ⟨prop, hmem, _⟩ := h
      cases hmem
  | cons p rest ih =>
      intro σ h
      obtain ⟨prop0, hmem, hpres, hlen⟩ := h
      by_cases hp : p.name ∈ bc.presPropNames
      · cases hlk : (patternsByProp.find? (·.1 = p.name)).map (·.2) with
        | none =>
            have hm : prop0 ∈ rest := by
              rcases List.mem_cons.mp hmem with he | hm
              · exfalso
                rw [he] at hlen
                unfold nonXmlPatterns at hlen
                rw [hlk] at hlen
                simp at hlen
              · exact hm
            simp only [generate_pattern_examples_loop, if_pos hp, hlk]
            exact ih σ ⟨prop0, hm, hpres, hlen⟩
        | some patterns =>
            by_cases h0 : (patterns.filter (· ≠ xmlSerializablePattern)).length = 0
            · have hm : prop0 ∈ rest := by
                rcases List.mem_cons.mp hmem with he | hm
                · exfalso
                  rw [he] at hlen
                  unfold nonXmlPatterns at hlen
                  rw [hlk] at hlen
                  simp only [Option.getD_some] at hlen
                  omega
                · exact hm
              simp only [generate_pattern_examples_loop, if_pos hp, hlk, if_pos h0]
              exact ih σ ⟨prop0, hm, hpres, hlen⟩
            · by_cases h1 : 1 < (patterns.filter (· ≠ xmlSerializablePattern)).length
              · simp only [generate_pattern_examples_loop, if_pos hp, hlk,
                  if_neg h0, if_pos h1]
                rfl
              · have hm : prop0 ∈ rest := by
                  rcases List.mem_cons.mp hmem with he | hm
                  · exfalso
                    rw [he] at hlen
                    unfold nonXmlPatterns at hlen
                    rw [hlk] at hlen
                    simp only [Option.getD_some] at hlen
                    exact h1 hlen
                  · exact hm
                cases hcat : byPattern
                    ((patterns.filter (· ≠ xmlSerializablePattern)).getD 0 "") with
                | none =>
                    simp only [generate_pattern_examples_loop, if_pos hp, hlk,
                      if_neg h0, if_neg h1, hcat]
                    rfl
                | some examples =>
                    simp only [generate_pattern_examples_loop, if_pos hp, hlk,
                      if_neg h0, if_neg h1, hcat]
                    have hrec := ih
                      (patternExampleCases bc "PatternViolation" p.name
                        examples.negatives
                        (patternExampleCases bc "PositivePatternExample" p.name
                          examples.positives σ).2).2
                      ⟨prop0, hm, hpres, hlen⟩
                    cases hres : generate_pattern_examples_loop bc patternsByProp
                        byPattern rest
                        (patternExampleCases bc "PatternViolation" p.name
                          examples.negatives
                          (patternExampleCases bc "PositivePatternExample" p.name
                            examples.positives σ).2).2 with
                    | mk res σ3 =>
                        rw [hres] at hrec
                        cases res with
                        | ok cs => exact Bool.noConfusion hrec
                        | error e => rfl
      · have hm : prop0 ∈ rest := by
          rcases List.mem_cons.mp hmem with he | hm
          · exact absurd (he ▸ hpres) hp
          · exact hm
        simp only [generate_pattern_examples_loop, if_neg hp]
        exact ih σ ⟨prop0, hm, hpres, hlen⟩

/-- C9 (amended).  For every property present in the snapshot whose
inferred constraints still contain more than one pattern after discarding
the XML-serializability pattern, generating pattern example cases raises a
hard generation error (it never silently picks one); a property whose
extra pattern is only the XML-serializability one is not an error (see the
counterexample above). -/
theorem pattern_examples_multiple_patterns_error (bc : BaseCase)
    (patternsByProp : List (String × List String))
    (byPattern : String → Option PatternExamples) (σ : PStore)
    (h : ∃ prop ∈ bc.clsProps, prop.name ∈ bc.presPropNames
      ∧ 1 < (nonXmlPatterns patternsByProp prop.name).length) :
    (generate_positive_and_negative_pattern_examples bc patternsByProp byPattern
        σ).1.isOk = false :=
  pattern_loop_error bc patternsByProp byPattern bc.clsProps σ h

/-- Witness for C9's amended statement: a property with two ordinary
patterns makes the generator raise. -/
theorem pattern_examples_multiple_patterns_error_witness :
    (∃ prop ∈ ([⟨"x", false, false, none⟩] : List GProp),
      prop.name ∈ ["x"]
      ∧ 1 < (nonXmlPatterns [("x", ["p1", "p2"])] prop.name).length)
    ∧ (generate_positive_and_negative_pattern_examples
        ⟨.prim (.pbool true), [], [⟨"x", false, false, none⟩], ["x"]⟩
        [("x", ["p1", "p2"])] (fun _ => none) []).1.isOk = false :=
  ⟨⟨⟨"x", false, false, none⟩, by decide, by decide, by decide⟩,
    pattern_examples_multiple_patterns_error
      ⟨.prim (.pbool true), [], [⟨"x", false, false, none⟩], ["x"]⟩
      [("x", ["p1", "p2"])] (fun _ => none) []
      ⟨⟨"x", false, false, none⟩, by decide, by decide, by decide⟩⟩

end Testgen
